import Mathlib

/-!
# gitwh: webhook ingestion and path-synchronised pulls

A shallow embedding of `handlers/handlers.go`, `config/config.go`,
`puller/puller.go` and `puller/git/git.go`, and the properties proved about it.

Conventions of the embedding.

* A Go `string` is a Lean `String`; `==` on strings is Lean equality.
* A Go slice `[]T` is `Slice T = Option (List T)`: `none` is the nil slice,
  `some []` an empty non-nil slice. `len` is `Slice.len`.
* A Go `map[string]V` is an association list read with `List.lookup`
  (a nil map and an empty map both are `[]`).
* A function returning `(T, error)` returns `Except error T`.
* Calls into the Go standard library (`net/http`, `io`, `encoding/json`) are
  not code of this repository. Their results are taken from a record
  `Stdlib` that every handler function receives as a parameter.
* Statements that only print (`fmt.Printf`, `log.Printf`) are left out: they
  write to the process output, never to the HTTP response, the channel or the
  puller.
-/

namespace Gitwh

/-! ## Go data -/

/-- A Go slice; `none` is `nil`. -/
abbrev Slice (α : Type) := Option (List α)

/-- Go `len` on a slice: a nil slice has length 0. -/
def Slice.len {α : Type} : Slice α → Nat
  | none => 0
  | some l => l.length

/-- Go `s[0]` on a slice of positive length. -/
def Slice.first {α : Type} : Slice α → Option α
  | some (x :: _) => some x
  | _ => none

namespace config

/-- Repo represents repository (`config.Repo`). -/
structure Repo where
  Secret : String
  Folders : Slice String
deriving DecidableEq, Repr

end config

/-- The registry type `repoMap = map[string]config.Repo`. -/
abbrev repoMap := List (String × config.Repo)

/-- The canonical notification (`handlers.Payload`). -/
structure Payload where
  Name : String := ""
  Email : String := ""
  CommitId : String := ""
  Message : String := ""
  Repo : String := ""
  Secret : String := ""
deriving DecidableEq, Repr

/-- The `pusher` object of a format-A document. -/
structure githubPusher where
  Name : String := ""
  Email : String := ""
deriving DecidableEq, Repr

/-- The `head_commit` object of a format-A document. -/
structure githubCommit where
  ID : String := ""
  Message : String := ""
deriving DecidableEq, Repr

/-- The `repository` (format A) or `project` (format B) object. -/
structure repositoryName where
  Name : String := ""
deriving DecidableEq, Repr

/-- The decoded format-A document (`handlers.githubPayload`). -/
structure githubPayload where
  Pusher : githubPusher := {}
  Commit : githubCommit := {}
  Repository : repositoryName := {}
  URL : String := ""
deriving DecidableEq, Repr

/-- The `author` object of a format-B commit. -/
structure gitlabAuthor where
  Name : String := ""
  Email : String := ""
deriving DecidableEq, Repr

/-- One element of `commits` in a format-B document. -/
structure gitlabCommit where
  ID : String := ""
  Message : String := ""
  Author : gitlabAuthor := {}
deriving DecidableEq, Repr

/-- The decoded format-B document (`handlers.gitlabPayload`). -/
structure gitlabPayload where
  Repository : repositoryName := {}
  Commits : Slice gitlabCommit := none
deriving DecidableEq, Repr

/-- Go `error` values met in the handlers. `lib` is an error handed back by a
standard-library call; the other three are the `fmt.Errorf` values built in
`gitlabPayload` ("invalid commit %v") and in `getRepositoryPath`
("repository %s not supported", "secret is not valid. Given value: %s"),
kept with the value they format. -/
inductive error where
  | lib (msg : String)
  | invalidCommit (pl : gitlabPayload)
  | notSupported (repo : String)
  | secretNotValid (given : String)
deriving DecidableEq, Repr

/-! ## HTTP requests and responses -/

/-- `http.Header` and `url.Values`: canonical key to list of values. -/
abbrev Header := List (String × List String)

/-- `Header.Get` for a key already in canonical form (the two keys the handlers
read, `Content-Type` and `X-Gitlab-Token`, are): the first value stored under the
key, or the empty string. -/
def Header.Get (h : Header) (key : String) : String :=
  match List.lookup key h with
  | some (v :: _) => v
  | _ => ""

/-- The parts of `http.Request` the handlers and the library read. -/
structure Request where
  Method : String := "POST"
  RawQuery : String := ""
  Header : Header := []
  Body : String := ""
  RemoteAddr : String := ""
deriving DecidableEq, Repr

/-- `Request.FormValue` after a successful `ParseForm`: first value of the key. -/
def FormValue (form : Header) (key : String) : String :=
  Header.Get form key

/-- The standard-library calls made by the handlers. -/
structure Stdlib where
  /-- `r.ParseForm()`: the parsed form, or the parse error. -/
  ParseForm : Request → Except error Header
  /-- `io.ReadAll(r.Body)`. -/
  ReadAll : Request → Except error String
  /-- `json.Unmarshal(data, &githubPayload{})`. -/
  UnmarshalGithub : String → Except error githubPayload
  /-- `json.Unmarshal(data, &gitlabPayload{})`. -/
  UnmarshalGitlab : String → Except error gitlabPayload

/-- `http.StatusBadRequest`. -/
def StatusBadRequest : Nat := 400

/-- `http.StatusOK`. -/
def StatusOK : Nat := 200

/-- An `http.ResponseWriter` as `httptest.ResponseRecorder` records it: a new
recorder has code 200, no header written and an empty body. -/
structure ResponseWriter where
  Code : Nat := 200
  wroteHeader : Bool := false
  HeaderMap : Header := []
  Body : String := ""
deriving DecidableEq, Repr

/-- `Header.Set`: replace the values stored under a key. -/
def Header.Set (h : Header) (key value : String) : Header :=
  (key, [value]) :: h.filter (fun kv => kv.1 != key)

/-- `Header.Del`. -/
def Header.Del (h : Header) (key : String) : Header :=
  h.filter (fun kv => kv.1 != key)

/-- `ResponseWriter.WriteHeader`: only the first call sets the status. -/
def ResponseWriter.WriteHeader (w : ResponseWriter) (code : Nat) : ResponseWriter :=
  if w.wroteHeader then w else { w with Code := code, wroteHeader := true }

/-- `ResponseWriter.Write`: an implicit 200 header, then the bytes. -/
def ResponseWriter.Write (w : ResponseWriter) (s : String) : ResponseWriter :=
  let w1 := if w.wroteHeader then w else { w with wroteHeader := true }
  { w1 with Body := w1.Body ++ s }

/-- `http.Error(w, msg, code)`: plain-text headers, the status, then the message
and a newline. -/
def httpError (w : ResponseWriter) (msg : String) (code : Nat) : ResponseWriter :=
  let h := ((w.HeaderMap.Del "Content-Length").Set "Content-Type"
    "text/plain; charset=utf-8").Set "X-Content-Type-Options" "nosniff"
  (({ w with HeaderMap := h }).WriteHeader code).Write (msg ++ "\n")

/-! ## handlers.go -/

/-- The handler (`handlers.handler`), for a puller whose state has type `σ`.
`event` is the channel `h.event`: the items sent on it and not yet received by
`pull`, oldest first. The channel's capacity delays a send on a full buffer
until `pull` receives; it changes neither which items are sent nor their order,
and is not part of the state. -/
structure handler (σ : Type) where
  event : List (Slice String)
  repos : repoMap
  puller : σ

namespace handler

variable {σ : Type}

/-- Decode a format-A request (`handler.githubPayload`). -/
def githubPayload (lib : Stdlib) (_h : handler σ) (r : Request) : Except error Payload :=
  match lib.ParseForm r with
  | .error err => .error err
  | .ok form =>
    let payload := FormValue form "payload"
    match lib.UnmarshalGithub payload with
    | .error err => .error err
    | .ok pl =>
      .ok { Name := pl.Pusher.Name
            Email := pl.Pusher.Email
            CommitId := pl.Commit.ID
            Message := pl.Commit.Message
            Repo := pl.Repository.Name }

/-- Decode a format-B request (`handler.gitlabPayload`). The read `pl.Commits[0]`
is `Slice.first`; its `none` branch stands for the index panic and is never
reached, the length having been checked (`Slice.first_of_len_ne_zero`). -/
def gitlabPayload (lib : Stdlib) (_h : handler σ) (r : Request) : Except error Payload :=
  match lib.ReadAll r with
  | .error err => .error err
  | .ok body =>
    match lib.UnmarshalGitlab body with
    | .error err => .error err
    | .ok pl =>
      if pl.Commits.len = 0 then .error (.invalidCommit pl)
      else
        match pl.Commits.first with
        | none => .error (.invalidCommit pl)
        | some commit =>
          .ok { Name := commit.Author.Name
                Email := commit.Author.Email
                CommitId := commit.ID
                Message := commit.Message
                Repo := pl.Repository.Name
                Secret := r.Header.Get "X-Gitlab-Token" }

/-- Choose the decoder by content type (`handler.getPayload`). -/
def getPayload (lib : Stdlib) (h : handler σ) (r : Request) : Except error Payload :=
  let contentType := r.Header.Get "Content-Type"
  if contentType = "application/json" then h.gitlabPayload lib r
  else h.githubPayload lib r

/-- Normalise, then authorise against the registry (`handler.getRepositoryPath`). -/
def getRepositoryPath (lib : Stdlib) (h : handler σ) (r : Request) :
    Except error (Slice String) :=
  match h.getPayload lib r with
  | .error err => .error err
  | .ok pl =>
    match List.lookup pl.Repo h.repos with
    | none => .error (.notSupported pl.Repo)
    | some repo =>
      if repo.Secret ≠ "" ∧ pl.Secret ≠ repo.Secret then .error (.secretNotValid pl.Secret)
      else .ok repo.Folders

/-- The `/wh` endpoint (`handler.handle`): the handler and the response writer
after the call. -/
def handle (lib : Stdlib) (h : handler σ) (w : ResponseWriter) (r : Request) :
    handler σ × ResponseWriter :=
  match h.getRepositoryPath lib r with
  | .error _ => (h, httpError w "Bad Request" StatusBadRequest)
  | .ok repoPath => ({ h with event := h.event ++ [repoPath] }, w)

/-- The receive loop (`handler.pull`), run on the items now in the channel:
each is handed to the puller, in channel order. `Pull` is the puller's method,
from state and argument to new state and returned error. -/
def pull (Pull : σ → Slice String → σ × Option error) (h : handler σ) : handler σ :=
  { h with event := [], puller := h.event.foldl (fun s path => (Pull s path).1) h.puller }

/-- The handler built by `handlers.New`: an empty channel, the given registry
and puller. `bufferSize` is the capacity passed to `make`, which only bounds how
many sent items may wait in the channel (see `handler.event`). -/
def New (repositories : repoMap) (_bufferSize : Nat) (puller : σ) : handler σ :=
  { event := [], repos := repositories, puller := puller }

end handler

/-! ## puller/git/git.go

The puller runs one goroutine per `Pull`, so its code is embedded twice: as
functions (`getMutex`, `pullPath`, `mutexedPull`) that give the effect of a call
run without interruption, and as a step relation in which any started goroutine
may take the next step. `exec_getMutex` and `exec_pullPath` relate the two. -/

namespace git

/-- How `cmd.Run()` ended: exit status 0, any other error, or the context
deadline. -/
inductive Outcome where
  | success
  | exitError
  | timeout
deriving DecidableEq, Repr

/-- The `sync.Mutex` values allocated so far: `locked m` is the state of the
mutex at address `m`, `next` the first address not yet allocated. -/
structure Heap where
  locked : Nat → Bool
  next : Nat

/-- The heap before any allocation. -/
def Heap.empty : Heap := { locked := fun _ => false, next := 0 }

/-- The expression `&sync.Mutex{}`: a new, unlocked mutex at a fresh address. -/
def Heap.newMutex (hp : Heap) : Nat × Heap :=
  (hp.next, { locked := Function.update hp.locked hp.next false, next := hp.next + 1 })

/-- The call `m.Lock()`: `none` while the mutex is held (the caller waits). -/
def Heap.Lock (hp : Heap) (m : Nat) : Option Heap :=
  if hp.locked m then none else some { hp with locked := Function.update hp.locked m true }

/-- The call `m.Unlock()`, made here only by the goroutine holding `m`. -/
def Heap.Unlock (hp : Heap) (m : Nat) : Heap :=
  { hp with locked := Function.update hp.locked m false }

/-- The puller (`git.simplePuller`): the map from path to mutex address, the
address of the mutex guarding the map, and the timeout in seconds. -/
structure simplePuller where
  mutexes : List (String × Nat)
  lock : Nat
  gitTimeout : Int

/-- New creates simple gitpuller (`git.New`): an empty map and a new mutex for it. -/
def New (timeout : Int) (hp : Heap) : simplePuller × Heap :=
  let a := hp.newMutex
  ({ mutexes := [], lock := a.1, gitTimeout := timeout }, a.2)

/-- The body of `getMutex`, executed while `p.lock` is held: insert a new mutex
when the path has none, then read the map at the path. -/
def getMutexBody (p : simplePuller) (hp : Heap) (path : String) : simplePuller × Heap × Nat :=
  match List.lookup path p.mutexes with
  | some m => (p, hp, m)
  | none =>
    let a := hp.newMutex
    ({ p with mutexes := (path, a.1) :: p.mutexes }, a.2, a.1)

/-- The whole of `getMutex` when run without interruption: lock `p.lock`, the
body, unlock. `none` while `p.lock` is held by another goroutine. -/
def getMutex (p : simplePuller) (hp : Heap) (path : String) :
    Option (simplePuller × Heap × Nat) :=
  match hp.Lock p.lock with
  | none => none
  | some hp1 =>
    let b := getMutexBody p hp1 path
    some (b.1, b.2.1.Unlock b.1.lock, b.2.2)

/-- A sequence of `getMutex` calls on one puller, each run without
interruption: the puller and the mutexes after the last call, and the addresses
returned, in call order. -/
def getMutexSeq : List String → simplePuller → Heap → Option (simplePuller × Heap × List Nat)
  | [], p, hp => some (p, hp, [])
  | path :: rest, p, hp =>
    match getMutex p hp path with
    | none => none
    | some a =>
      match getMutexSeq rest a.1 a.2.1 with
      | none => none
      | some b => some (b.1, b.2.1, a.2.2 :: b.2.2)

/-- What `pullPath` does once `getMutex` has returned, in the order it does it:
`m.Lock()`, the run of `git pull` in directory `path` under the deadline of
`timeout` seconds with its outcome, and the deferred `m.Unlock()`. -/
inductive Event where
  | Lock (m : Nat)
  | gitPull (path : String) (timeout : Int) (o : Outcome)
  | Unlock (m : Nat)
deriving DecidableEq, Repr

/-- The function `pullPath` run without interruption, `o` being how `cmd.Run()`
ends: the puller and the mutexes afterwards, and the events in order. `none`
when `getMutex` or `m.Lock()` has to wait. An error from `cmd.Run()` returns
early, a success falls through; the deferred `m.Unlock()` runs on both ways. -/
def pullPath (o : Outcome) (p : simplePuller) (hp : Heap) (path : String) :
    Option (simplePuller × Heap × List Event) :=
  match getMutex p hp path with
  | none => none
  | some a =>
    match a.2.1.Lock a.2.2 with
    | none => none
    | some hp2 =>
      match o with
      | .success =>
        some (a.1, hp2.Unlock a.2.2,
          [.Lock a.2.2, .gitPull path a.1.gitTimeout .success, .Unlock a.2.2])
      | err =>
        some (a.1, hp2.Unlock a.2.2,
          [.Lock a.2.2, .gitPull path a.1.gitTimeout err, .Unlock a.2.2])

/-- The loop `for _, path := range paths { p.pullPath(path) }`; `outs i` is the
outcome of the `git pull` of the path at position `i` of the sequence, and `i`
the position of the first path of the list. -/
def mutexedPullLoop (outs : Nat → Outcome) :
    List String → Nat → simplePuller → Heap → Option (simplePuller × Heap × List Event)
  | [], _, p, hp => some (p, hp, [])
  | path :: rest, i, p, hp =>
    match pullPath (outs i) p hp path with
    | none => none
    | some a =>
      match mutexedPullLoop outs rest (i + 1) a.1 a.2.1 with
      | none => none
      | some b => some (b.1, b.2.1, a.2.2 ++ b.2.2)

/-- The function `mutexedPull` run without interruption: nothing for a nil
slice, else the loop over the paths. -/
def mutexedPull (outs : Nat → Outcome) (p : simplePuller) (hp : Heap) :
    Slice String → Option (simplePuller × Heap × List Event)
  | none => some (p, hp, [])
  | some paths => mutexedPullLoop outs paths 0 p hp

/-- The runs of `git pull` among the events: directory and outcome, in order. -/
def Event.pulls : List Event → List (String × Outcome)
  | [] => []
  | .gitPull path _ o :: es => (path, o) :: Event.pulls es
  | _ :: es => Event.pulls es

/-- The registry is well formed: every address in the map is allocated, no two
paths share an address, and no path has two entries. -/
structure RegWF (p : simplePuller) (hp : Heap) : Prop where
  map_alloc : ∀ path m, List.lookup path p.mutexes = some m → m < hp.next
  map_inj : ∀ p1 p2 m, List.lookup p1 p.mutexes = some m →
    List.lookup p2 p.mutexes = some m → p1 = p2
  keys_nodup : (p.mutexes.map Prod.fst).Nodup

/-- Outcomes for a sample run: the pull at position 1 exits with an error, the
one at position 2 times out, the others succeed. -/
def sampleOutcomes : Nat → Outcome
  | 1 => .exitError
  | 2 => .timeout
  | _ => .success

/-- Where a goroutine stands in `mutexedPull`. `rest` are the paths of the
`for` loop still to come after the current one.

* `idle`: not started.
* `mutexedPull paths`: at the entry of `mutexedPull(paths)`.
* `forLoop rest`: at the head of `for _, path := range paths`.
* `getMutexLock path rest`: in `pullPath`, in `getMutex`, before `p.lock.Lock()`.
* `getMutexBody path rest`: holding `p.lock`, before the map access.
* `mLock path m rest`: `getMutex` returned `m`; before `m.Lock()`.
* `cmdRun path m rest`: holding `m`; `git pull` is running in `path`.
* `mUnlock path m rest o`: `cmd.Run()` returned `o`; the deferred `m.Unlock()`
  has not run yet.
* `done`: `mutexedPull` returned. -/
inductive PC where
  | idle
  | mutexedPull (paths : Slice String)
  | forLoop (rest : List String)
  | getMutexLock (path : String) (rest : List String)
  | getMutexBody (path : String) (rest : List String)
  | mLock (path : String) (m : Nat) (rest : List String)
  | cmdRun (path : String) (m : Nat) (rest : List String)
  | mUnlock (path : String) (m : Nat) (rest : List String) (o : Outcome)
  | done
deriving DecidableEq, Repr

/-- One puller, the mutexes, and the goroutines started on it by number. -/
structure System where
  heap : Heap
  p : simplePuller
  threads : Nat → PC

/-- The system after `git.New(timeout)`: no goroutine started. -/
def System.init (timeout : Int) : System :=
  let a := New timeout Heap.empty
  { heap := a.2, p := a.1, threads := fun _ => PC.idle }

/-- What can happen next: `Pull t paths` is the call `p.Pull(paths)`, whose
`go p.mutexedPull(paths)` starts goroutine `t`; `step t` lets goroutine `t`
execute up to its next program point; `cmdDone t o` is the end of the `git pull`
of goroutine `t` with outcome `o`. -/
inductive Action where
  | Pull (t : Nat) (paths : Slice String)
  | step (t : Nat)
  | cmdDone (t : Nat) (o : Outcome)
deriving DecidableEq, Repr

/-- Move goroutine `t` to program point `pc`. -/
def System.goto (s : System) (t : Nat) (pc : PC) : System :=
  { s with threads := Function.update s.threads t pc }

/-- One step of the system; `none` when the action cannot happen now (the
goroutine waits for a mutex, is not at that point, or has ended). -/
def System.step (s : System) : Action → Option System
  | .Pull t paths =>
    match s.threads t with
    | .idle => some (s.goto t (.mutexedPull paths))
    | _ => none
  | .cmdDone t o =>
    match s.threads t with
    | .cmdRun path m rest => some (s.goto t (.mUnlock path m rest o))
    | _ => none
  | .step t =>
    match s.threads t with
    | .mutexedPull none => some (s.goto t .done)
    | .mutexedPull (some paths) => some (s.goto t (.forLoop paths))
    | .forLoop [] => some (s.goto t .done)
    | .forLoop (path :: rest) => some (s.goto t (.getMutexLock path rest))
    | .getMutexLock path rest =>
      match s.heap.Lock s.p.lock with
      | none => none
      | some hp => some (({ s with heap := hp } : System).goto t (.getMutexBody path rest))
    | .getMutexBody path rest =>
      let b := getMutexBody s.p s.heap path
      some (({ s with p := b.1, heap := b.2.1.Unlock b.1.lock } : System).goto t
        (.mLock path b.2.2 rest))
    | .mLock path m rest =>
      match s.heap.Lock m with
      | none => none
      | some hp => some (({ s with heap := hp } : System).goto t (.cmdRun path m rest))
    | .mUnlock _ m rest _ =>
      some (({ s with heap := s.heap.Unlock m } : System).goto t (.forLoop rest))
    | _ => none

/-- Run a schedule, a list of actions, from a state; `none` when one of them
cannot happen at its turn. -/
def System.exec (s : System) : List Action → Option System
  | [] => some s
  | a :: as =>
    match s.step a with
    | none => none
    | some s1 => s1.exec as

/-- The mutex address a goroutine holds at a program point, `reg` being the
address of `p.lock`. -/
def PC.held (reg : Nat) : PC → Option Nat
  | .getMutexBody _ _ => some reg
  | .cmdRun _ m _ => some m
  | .mUnlock _ m _ _ => some m
  | _ => none

/-- The path and the mutex address obtained for it that a goroutine carries. -/
def PC.pathLock : PC → Option (String × Nat)
  | .mLock path m _ => some (path, m)
  | .cmdRun path m _ => some (path, m)
  | .mUnlock path m _ _ => some (path, m)
  | _ => none

/-- The invariant of the execution: the map's mutex and every mutex in the map
are allocated, the addresses in the map are pairwise different and different
from the map's mutex, the address a goroutine carries for a path is the one the
map holds, and a mutex is locked exactly when one goroutine, and only one,
holds it. -/
structure Inv (s : System) : Prop where
  lock_alloc : s.p.lock < s.heap.next
  map_alloc : ∀ path m, List.lookup path s.p.mutexes = some m →
    m < s.heap.next ∧ m ≠ s.p.lock
  map_inj : ∀ p1 p2 m, List.lookup p1 s.p.mutexes = some m →
    List.lookup p2 s.p.mutexes = some m → p1 = p2
  thread_map : ∀ t path m, (s.threads t).pathLock = some (path, m) →
    List.lookup path s.p.mutexes = some m
  held_alloc : ∀ t m, (s.threads t).held s.p.lock = some m → m < s.heap.next
  locked_iff : ∀ m, s.heap.locked m = true ↔ ∃ t, (s.threads t).held s.p.lock = some m
  held_unique : ∀ t1 t2 m, (s.threads t1).held s.p.lock = some m →
    (s.threads t2).held s.p.lock = some m → t1 = t2

/-- Two goroutines pulling the same path: goroutine 0 is running `git pull` in
`/a`, goroutine 1 has obtained the mutex of `/a` and waits for it. -/
def sampleSchedule : List Action :=
  [.Pull 0 (some ["/a"]), .Pull 1 (some ["/a", "/b"]), .step 0, .step 0, .step 0, .step 0,
   .step 1, .step 1, .step 1, .step 1, .step 0]

/-- The same, then a third goroutine pulls `/b` and reaches its `git pull` while
the mutex of `/a` is still held. -/
def sampleSchedule2 : List Action :=
  sampleSchedule ++ [.Pull 2 (some ["/b"]), .step 2, .step 2, .step 2, .step 2, .step 2]

/-- The state reached by `sampleSchedule` from a new puller. -/
def sampleSystem : System :=
  ((System.init 10).exec sampleSchedule).getD (System.init 10)

end git

/-! ## Sample requests

The documents and requests used to exercise the theorems, and the results the
Go standard library gives on them. -/

/-- A format-A document. -/
def sampleGithubDoc : String :=
  "\x7b\"pusher\":\x7b\"name\":\"ann\",\"email\":\"a@x.io\"\x7d,\"head_commit\":\x7b\"id\":\"c1\",\"message\":\"m1\"\x7d,\"repository\":\x7b\"name\":\"demo\"\x7d\x7d"

/-- The form encoding of `payload=sampleGithubDoc`. -/
def sampleFormBody : String :=
  "payload=%7B%22pusher%22%3A%7B%22name%22%3A%22ann%22%2C%22email%22%3A%22a%40x.io%22%7D%2C%22head_commit%22%3A%7B%22id%22%3A%22c1%22%2C%22message%22%3A%22m1%22%7D%2C%22repository%22%3A%7B%22name%22%3A%22demo%22%7D%7D"

/-- A format-B document with one commit. -/
def sampleGitlabDoc : String :=
  "\x7b\"project\":\x7b\"name\":\"demo\"\x7d,\"commits\":[\x7b\"id\":\"c1\",\"message\":\"m1\",\"author\":\x7b\"name\":\"ann\",\"email\":\"a@x.io\"\x7d\x7d]\x7d"

/-- A format-B document with two commits. -/
def sampleGitlabDoc2 : String :=
  "\x7b\"project\":\x7b\"name\":\"demo\"\x7d,\"commits\":[\x7b\"id\":\"c1\",\"message\":\"m1\",\"author\":\x7b\"name\":\"ann\",\"email\":\"a@x.io\"\x7d\x7d,\x7b\"id\":\"c2\",\"message\":\"m2\",\"author\":\x7b\"name\":\"bob\",\"email\":\"b@x.io\"\x7d\x7d]\x7d"

/-- A format-B document with an empty commits list. -/
def sampleGitlabNoCommits : String :=
  "\x7b\"project\":\x7b\"name\":\"demo\"\x7d,\"commits\":[]\x7d"

/-- A format-B document without a commits key. -/
def sampleGitlabAbsentCommits : String :=
  "\x7b\"project\":\x7b\"name\":\"demo\"\x7d\x7d"

/-- The error value standing for an input outside the samples. -/
def outsideSamples : error := .lib "input outside the sample set"

/-- The commit `c1` of the format-B samples. -/
def sampleCommit1 : gitlabCommit :=
  { ID := "c1", Message := "m1", Author := { Name := "ann", Email := "a@x.io" } }

/-- The commit `c2` of the two-commit sample. -/
def sampleCommit2 : gitlabCommit :=
  { ID := "c2", Message := "m2", Author := { Name := "bob", Email := "b@x.io" } }

/-- The standard library on the sample inputs. `ParseForm` of a POST without
query string reads the body only under the form-urlencoded content type;
`json.Unmarshal` of the empty input is a syntax error. Inputs that are not
samples get `outsideSamples`. -/
def sampleStdlib : Stdlib where
  ParseForm := fun r =>
    if r.Method = "POST" ∧ r.RawQuery = "" then
      if r.Header.Get "Content-Type" = "application/x-www-form-urlencoded" then
        if r.Body = sampleFormBody then .ok [("payload", [sampleGithubDoc])]
        else if r.Body = "" then .ok []
        else .error outsideSamples
      else if r.Header.Get "Content-Type" = "application/json"
          ∨ r.Header.Get "Content-Type" = "application/json; charset=utf-8"
          ∨ r.Header.Get "Content-Type" = "Application/JSON" then .ok []
      else .error outsideSamples
    else .error outsideSamples
  ReadAll := fun r => .ok r.Body
  UnmarshalGithub := fun data =>
    if data = sampleGithubDoc then
      .ok { Pusher := { Name := "ann", Email := "a@x.io" }
            Commit := { ID := "c1", Message := "m1" }
            Repository := { Name := "demo" } }
    else if data = "" then .error (.lib "unexpected end of JSON input")
    else .error outsideSamples
  UnmarshalGitlab := fun data =>
    if data = sampleGitlabDoc then
      .ok { Repository := { Name := "demo" }, Commits := some [sampleCommit1] }
    else if data = sampleGitlabDoc2 then
      .ok { Repository := { Name := "demo" }, Commits := some [sampleCommit1, sampleCommit2] }
    else if data = sampleGitlabNoCommits then
      .ok { Repository := { Name := "demo" }, Commits := some [] }
    else if data = sampleGitlabAbsentCommits then
      .ok { Repository := { Name := "demo" }, Commits := none }
    else if data = "" then .error (.lib "unexpected end of JSON input")
    else .error outsideSamples

/-- A format-A request carrying `sampleGithubDoc`. -/
def sampleFormRequest : Request :=
  { Header := [("Content-Type", ["application/x-www-form-urlencoded"])]
    Body := sampleFormBody
    RemoteAddr := "192.0.2.1:1234" }

/-- A format-B request with the given body and `X-Gitlab-Token`. -/
def sampleJSONRequest (body token : String) : Request :=
  { Header := [("Content-Type", ["application/json"]), ("X-Gitlab-Token", [token])]
    Body := body
    RemoteAddr := "192.0.2.1:1234" }

/-- A request with a JSON body whose content type carries a parameter. -/
def sampleCharsetRequest : Request :=
  { Header := [("Content-Type", ["application/json; charset=utf-8"]), ("X-Gitlab-Token", ["tok"])]
    Body := sampleGitlabDoc
    RemoteAddr := "192.0.2.1:1234" }

/-- A request with a JSON body whose content type is written in other letter case. -/
def sampleUpperCaseRequest : Request :=
  { Header := [("Content-Type", ["Application/JSON"]), ("X-Gitlab-Token", ["tok"])]
    Body := sampleGitlabDoc
    RemoteAddr := "192.0.2.1:1234" }

/-- A new `httptest.ResponseRecorder` (`httptest.NewRecorder`). -/
def NewRecorder : ResponseWriter := {}

/-- A handler over a registry, with an empty channel and a unit puller. -/
def sampleHandler (repos : repoMap) : handler Unit :=
  handler.New repos 1 ()

end Gitwh

/-! ## Theorems: the Request Authorizer -/

namespace Gitwh

open handler

variable {σ : Type}

set_option maxRecDepth 20000

/-- A slice of length other than 0 has a first element, so the branch of
`gitlabPayload` for a missing first element is never taken. -/
theorem Slice.first_of_len_ne_zero {α : Type} (s : Slice α) (hlen : s.len ≠ 0) :
    ∃ x, s.first = some x := by
  cases s with
  | none => exact absurd rfl hlen
  | some l =>
    cases l with
    | nil => exact absurd rfl hlen
    | cons x _ => exact ⟨x, rfl⟩

/-- For a request that normalises to `pl` and a registry entry found for
`pl.Repo`, the outcome of `getRepositoryPath` is decided by the secret check
alone. -/
theorem getRepositoryPath_of_entry (lib : Stdlib) (h : handler σ) (r : Request)
    (pl : Payload) (e : config.Repo)
    (hpl : h.getPayload lib r = .ok pl) (he : List.lookup pl.Repo h.repos = some e) :
    h.getRepositoryPath lib r =
      if e.Secret ≠ "" ∧ pl.Secret ≠ e.Secret then .error (.secretNotValid pl.Secret)
      else .ok e.Folders := by
  simp only [getRepositoryPath, hpl, he]

/-- With the entry found, `getRepositoryPath` returns the entry's folders
exactly when the secret check passes. -/
theorem entry_folders_iff_secret (lib : Stdlib) (h : handler σ) (r : Request)
    (pl : Payload) (e : config.Repo)
    (hpl : h.getPayload lib r = .ok pl) (he : List.lookup pl.Repo h.repos = some e) :
    h.getRepositoryPath lib r = .ok e.Folders ↔ (e.Secret = "" ∨ pl.Secret = e.Secret) := by
  rw [getRepositoryPath_of_entry lib h r pl e hpl he]
  by_cases hs : e.Secret = ""
  · simp [hs]
  · by_cases hp : pl.Secret = e.Secret
    · simp [hs, hp]
    · simp [hs, hp]

/-- C1: when the registry holds an entry `e` for the notification's repository,
`getRepositoryPath` succeeds if and only if `e.Secret` is empty or the presented
secret equals `e.Secret` as a string; on success it returns `e.Folders`, and an
entry with an empty secret authorises every presented secret. -/
theorem getRepositoryPath_ok_iff_secret (lib : Stdlib) (h : handler σ) (r : Request)
    (pl : Payload) (e : config.Repo)
    (hpl : h.getPayload lib r = .ok pl) (he : List.lookup pl.Repo h.repos = some e) :
    ((∃ paths, h.getRepositoryPath lib r = .ok paths) ↔ (e.Secret = "" ∨ pl.Secret = e.Secret))
    ∧ (h.getRepositoryPath lib r = .ok e.Folders ↔ (e.Secret = "" ∨ pl.Secret = e.Secret))
    ∧ (e.Secret = "" → h.getRepositoryPath lib r = .ok e.Folders) := by
  rw [getRepositoryPath_of_entry lib h r pl e hpl he]
  by_cases hs : e.Secret = ""
  · simp [hs]
  · by_cases hp : pl.Secret = e.Secret
    · simp [hs, hp]
    · simp [hs, hp]

/-- C1 at a sample: registry secret `right`, presented secret `right`. -/
theorem getRepositoryPath_ok_iff_secret_witness :
    (∃ paths, (sampleHandler [("demo", ⟨"right", some ["/a"]⟩)]).getRepositoryPath sampleStdlib
        (sampleJSONRequest sampleGitlabDoc "right") = .ok paths)
      ↔ ("right" = "" ∨ "right" = "right") :=
  (getRepositoryPath_ok_iff_secret sampleStdlib
    (sampleHandler [("demo", ⟨"right", some ["/a"]⟩)])
    (sampleJSONRequest sampleGitlabDoc "right")
    { Name := "ann", Email := "a@x.io", CommitId := "c1", Message := "m1", Repo := "demo",
      Secret := "right" }
    ⟨"right", some ["/a"]⟩ rfl rfl).1

/-- The secret comparison is exact: a secret differing only in letter case, or
only by a leading blank, is rejected. -/
theorem getRepositoryPath_secret_exact :
    (sampleHandler [("demo", ⟨"right", some ["/a"]⟩)]).getRepositoryPath sampleStdlib
        (sampleJSONRequest sampleGitlabDoc "Right") = .error (.secretNotValid "Right")
    ∧ (sampleHandler [("demo", ⟨"right", some ["/a"]⟩)]).getRepositoryPath sampleStdlib
        (sampleJSONRequest sampleGitlabDoc " right") = .error (.secretNotValid " right")
    ∧ (sampleHandler [("demo", ⟨"right", some ["/a"]⟩)]).getRepositoryPath sampleStdlib
        (sampleJSONRequest sampleGitlabDoc "") = .error (.secretNotValid "") :=
  ⟨rfl, rfl, rfl⟩

/-- C2: when the notification's repository is not a key of the registry,
`getRepositoryPath` fails with the unsupported-repository error and returns no
paths, whatever secret was presented. -/
theorem getRepositoryPath_unregistered (lib : Stdlib) (h : handler σ) (r : Request)
    (pl : Payload)
    (hpl : h.getPayload lib r = .ok pl) (hno : List.lookup pl.Repo h.repos = none) :
    h.getRepositoryPath lib r = .error (.notSupported pl.Repo)
    ∧ ∀ paths, h.getRepositoryPath lib r ≠ .ok paths := by
  have hres : h.getRepositoryPath lib r = .error (.notSupported pl.Repo) := by
    simp only [getRepositoryPath, hpl, hno]
  refine ⟨hres, ?_⟩
  intro paths hok
  rw [hres] at hok
  cases hok

/-- C2 at a sample: the secret `right` of repository `other` is presented for
the unregistered repository `demo`. -/
theorem getRepositoryPath_unregistered_witness :
    (sampleHandler [("other", ⟨"right", some ["/a"]⟩)]).getRepositoryPath sampleStdlib
        (sampleJSONRequest sampleGitlabDoc "right") = .error (.notSupported "demo")
    ∧ (sampleHandler [("other", ⟨"right", some ["/a"]⟩)]).getRepositoryPath sampleStdlib
        (sampleJSONRequest sampleGitlabDoc "right") ≠ .ok (some ["/a"]) :=
  ⟨(getRepositoryPath_unregistered sampleStdlib
      (sampleHandler [("other", ⟨"right", some ["/a"]⟩)])
      (sampleJSONRequest sampleGitlabDoc "right")
      { Name := "ann", Email := "a@x.io", CommitId := "c1", Message := "m1", Repo := "demo",
        Secret := "right" }
      rfl rfl).1,
   (getRepositoryPath_unregistered sampleStdlib
      (sampleHandler [("other", ⟨"right", some ["/a"]⟩)])
      (sampleJSONRequest sampleGitlabDoc "right")
      { Name := "ann", Email := "a@x.io", CommitId := "c1", Message := "m1", Repo := "demo",
        Secret := "right" }
      rfl rfl).2 (some ["/a"])⟩

/-! ## Theorems: the Payload Normaliser -/

/-- `getPayload` on a request whose content type is exactly `application/json`. -/
theorem getPayload_json (lib : Stdlib) (h : handler σ) (r : Request)
    (hct : r.Header.Get "Content-Type" = "application/json") :
    h.getPayload lib r = h.gitlabPayload lib r := by
  simp only [getPayload, hct, if_true]

/-- `getPayload` on a request whose content type is any other string. -/
theorem getPayload_other (lib : Stdlib) (h : handler σ) (r : Request)
    (hct : r.Header.Get "Content-Type" ≠ "application/json") :
    h.getPayload lib r = h.githubPayload lib r := by
  simp only [getPayload, hct, if_false]

/-- When normalisation fails, `getRepositoryPath` fails with the same error,
whatever the registry holds. -/
theorem getRepositoryPath_of_getPayload_error (lib : Stdlib) (h : handler σ) (r : Request)
    (err : error) (hpl : h.getPayload lib r = .error err) :
    h.getRepositoryPath lib r = .error err := by
  simp only [getRepositoryPath, hpl]

/-- C3: a format-B body that decodes to a document whose commits list is
absent (nil) or empty makes `gitlabPayload` return an error and no notification;
and under the JSON content type `getRepositoryPath` then fails with that error
for every handler, so for every registry, including one that registers the
project name with an empty secret. -/
theorem gitlabPayload_no_commits (lib : Stdlib) (h : handler σ) (r : Request)
    (body : String) (pl : Gitwh.gitlabPayload)
    (hbody : lib.ReadAll r = .ok body) (hdec : lib.UnmarshalGitlab body = .ok pl)
    (hempty : pl.Commits = none ∨ pl.Commits = some []) :
    h.gitlabPayload lib r = .error (.invalidCommit pl)
    ∧ (r.Header.Get "Content-Type" = "application/json" →
        ∀ h2 : handler σ, h2.getRepositoryPath lib r = .error (.invalidCommit pl)) := by
  have hlen : pl.Commits.len = 0 := by
    rcases hempty with hc | hc <;> rw [hc] <;> rfl
  have hgl : ∀ h2 : handler σ, h2.gitlabPayload lib r = .error (.invalidCommit pl) := by
    intro h2
    simp only [handler.gitlabPayload, hbody, hdec, hlen, if_true]
  refine ⟨hgl h, ?_⟩
  intro hct h2
  apply getRepositoryPath_of_getPayload_error
  rw [getPayload_json lib h2 r hct]
  exact hgl h2

/-- C3 at a sample: an empty commits list, project `demo` registered with an
empty secret. -/
theorem gitlabPayload_no_commits_witness :
    (sampleHandler [("demo", ⟨"", some ["/a"]⟩)]).gitlabPayload sampleStdlib
        (sampleJSONRequest sampleGitlabNoCommits "")
      = .error (.invalidCommit { Repository := { Name := "demo" }, Commits := some [] })
    ∧ (sampleHandler [("demo", ⟨"", some ["/a"]⟩)]).getRepositoryPath sampleStdlib
          (sampleJSONRequest sampleGitlabNoCommits "")
      = .error (.invalidCommit { Repository := { Name := "demo" }, Commits := some [] }) :=
  ⟨(gitlabPayload_no_commits sampleStdlib (sampleHandler [("demo", ⟨"", some ["/a"]⟩)])
      (sampleJSONRequest sampleGitlabNoCommits "") sampleGitlabNoCommits
      { Repository := { Name := "demo" }, Commits := some [] } rfl rfl (Or.inr rfl)).1,
   (gitlabPayload_no_commits sampleStdlib (sampleHandler [("demo", ⟨"", some ["/a"]⟩)])
      (sampleJSONRequest sampleGitlabNoCommits "") sampleGitlabNoCommits
      { Repository := { Name := "demo" }, Commits := some [] } rfl rfl (Or.inr rfl)).2 rfl
      (sampleHandler [("demo", ⟨"", some ["/a"]⟩)])⟩

/-- The same failure when the commits key is absent from the document. -/
theorem gitlabPayload_absent_commits :
    (sampleHandler [("demo", ⟨"", some ["/a"]⟩)]).getRepositoryPath sampleStdlib
        (sampleJSONRequest sampleGitlabAbsentCommits "")
      = .error (.invalidCommit { Repository := { Name := "demo" }, Commits := none }) :=
  rfl

/-- C4: a format-B body that decodes to a document with commits `c :: rest`
makes `gitlabPayload` succeed with the notification built from `c` alone: author
name, author email, id and message of `c`, the project name, and the value of
the `X-Gitlab-Token` header. The result does not mention `rest`. -/
theorem gitlabPayload_first_commit (lib : Stdlib) (h : handler σ) (r : Request)
    (body : String) (pl : Gitwh.gitlabPayload) (c : gitlabCommit) (rest : List gitlabCommit)
    (hbody : lib.ReadAll r = .ok body) (hdec : lib.UnmarshalGitlab body = .ok pl)
    (hc : pl.Commits = some (c :: rest)) :
    h.gitlabPayload lib r =
      .ok { Name := c.Author.Name
            Email := c.Author.Email
            CommitId := c.ID
            Message := c.Message
            Repo := pl.Repository.Name
            Secret := r.Header.Get "X-Gitlab-Token" } := by
  have hlen : pl.Commits.len ≠ 0 := by
    rw [hc]
    exact Nat.succ_ne_zero _
  have hfirst : pl.Commits.first = some c := by
    rw [hc]
    rfl
  simp only [handler.gitlabPayload, hbody, hdec, hlen, if_false, hfirst]

/-- C4 at a sample: two commits, the notification is that of the first. -/
theorem gitlabPayload_first_commit_witness :
    (sampleHandler []).gitlabPayload sampleStdlib (sampleJSONRequest sampleGitlabDoc2 "tok") =
      .ok { Name := sampleCommit1.Author.Name
            Email := sampleCommit1.Author.Email
            CommitId := sampleCommit1.ID
            Message := sampleCommit1.Message
            Repo := "demo"
            Secret := (sampleJSONRequest sampleGitlabDoc2 "tok").Header.Get "X-Gitlab-Token" } :=
  gitlabPayload_first_commit sampleStdlib (sampleHandler [])
    (sampleJSONRequest sampleGitlabDoc2 "tok") sampleGitlabDoc2
    { Repository := { Name := "demo" }, Commits := some [sampleCommit1, sampleCommit2] }
    sampleCommit1 [sampleCommit2] rfl rfl rfl

/-- Two documents that agree on the project name and on the first commit give
the same notification, whatever commits follow. -/
theorem gitlabPayload_rest_irrelevant (lib : Stdlib) (h : handler σ) (r1 r2 : Request)
    (b1 b2 : String) (p1 p2 : Gitwh.gitlabPayload) (c : gitlabCommit)
    (rest1 rest2 : List gitlabCommit)
    (hb1 : lib.ReadAll r1 = .ok b1) (hd1 : lib.UnmarshalGitlab b1 = .ok p1)
    (hb2 : lib.ReadAll r2 = .ok b2) (hd2 : lib.UnmarshalGitlab b2 = .ok p2)
    (hc1 : p1.Commits = some (c :: rest1)) (hc2 : p2.Commits = some (c :: rest2))
    (hname : p1.Repository.Name = p2.Repository.Name)
    (htok : r1.Header.Get "X-Gitlab-Token" = r2.Header.Get "X-Gitlab-Token") :
    h.gitlabPayload lib r1 = h.gitlabPayload lib r2 := by
  have hlen1 : p1.Commits.len ≠ 0 := by rw [hc1]; exact Nat.succ_ne_zero _
  have hlen2 : p2.Commits.len ≠ 0 := by rw [hc2]; exact Nat.succ_ne_zero _
  have hf1 : p1.Commits.first = some c := by rw [hc1]; rfl
  have hf2 : p2.Commits.first = some c := by rw [hc2]; rfl
  simp only [handler.gitlabPayload, hb1, hd1, hb2, hd2, hlen1, hlen2, if_false, hf1, hf2,
    hname, htok]

/-- C5: a request whose form parses and whose `payload` field decodes to the
document `doc` makes `githubPayload` return the notification with the pusher
name and email, the head commit id and message, the repository name, and the
empty secret; no header of the request enters the result. -/
theorem githubPayload_fields (lib : Stdlib) (h : handler σ) (r : Request)
    (form : Header) (doc : Gitwh.githubPayload)
    (hform : lib.ParseForm r = .ok form)
    (hdec : lib.UnmarshalGithub (FormValue form "payload") = .ok doc) :
    h.githubPayload lib r =
      .ok { Name := doc.Pusher.Name
            Email := doc.Pusher.Email
            CommitId := doc.Commit.ID
            Message := doc.Commit.Message
            Repo := doc.Repository.Name
            Secret := "" } := by
  simp only [handler.githubPayload, hform, hdec]

/-- C5 at a sample: the form request carrying `sampleGithubDoc`. -/
theorem githubPayload_fields_witness :
    (sampleHandler []).githubPayload sampleStdlib sampleFormRequest =
      .ok { Name := "ann", Email := "a@x.io", CommitId := "c1", Message := "m1",
            Repo := "demo", Secret := "" } :=
  githubPayload_fields sampleStdlib (sampleHandler []) sampleFormRequest
    [("payload", [sampleGithubDoc])]
    { Pusher := { Name := "ann", Email := "a@x.io" }
      Commit := { ID := "c1", Message := "m1" }
      Repository := { Name := "demo" } }
    rfl rfl

/-- C6, as the claim states it, fails: with the content type
`application/json; charset=utf-8` (and with `Application/JSON`) a request whose
body is a valid format-B document is not decoded as format B. `getPayload`
takes the format-A path, finds no `payload` form field and fails, while
`gitlabPayload` on the same request succeeds. -/
theorem getPayload_json_with_parameter_is_formatA :
    (sampleHandler []).getPayload sampleStdlib sampleCharsetRequest
      = .error (.lib "unexpected end of JSON input")
    ∧ (sampleHandler []).gitlabPayload sampleStdlib sampleCharsetRequest
      = .ok { Name := "ann", Email := "a@x.io", CommitId := "c1", Message := "m1",
              Repo := "demo", Secret := "tok" }
    ∧ (sampleHandler []).getPayload sampleStdlib sampleCharsetRequest
      ≠ (sampleHandler []).gitlabPayload sampleStdlib sampleCharsetRequest
    ∧ (sampleHandler []).getPayload sampleStdlib sampleUpperCaseRequest
      ≠ (sampleHandler []).gitlabPayload sampleStdlib sampleUpperCaseRequest := by
  refine ⟨rfl, rfl, ?_, ?_⟩
  · intro heq
    have h1 : (sampleHandler []).getPayload sampleStdlib sampleCharsetRequest
        = .error (.lib "unexpected end of JSON input") := rfl
    have h2 : (sampleHandler []).gitlabPayload sampleStdlib sampleCharsetRequest
        = .ok { Name := "ann", Email := "a@x.io", CommitId := "c1", Message := "m1",
                Repo := "demo", Secret := "tok" } := rfl
    rw [h1, h2] at heq
    cases heq
  · intro heq
    have h1 : (sampleHandler []).getPayload sampleStdlib sampleUpperCaseRequest
        = .error (.lib "unexpected end of JSON input") := rfl
    have h2 : (sampleHandler []).gitlabPayload sampleStdlib sampleUpperCaseRequest
        = .ok { Name := "ann", Email := "a@x.io", CommitId := "c1", Message := "m1",
                Repo := "demo", Secret := "tok" } := rfl
    rw [h1, h2] at heq
    cases heq

/-- C6, amended: `getPayload` decodes a request as format B (`gitlabPayload`)
when the first `Content-Type` value is exactly the string `application/json`,
and as format A (`githubPayload`) for every other value, an absent header
included. -/
theorem getPayload_exact_content_type (lib : Stdlib) (h : handler σ) (r : Request) :
    (r.Header.Get "Content-Type" = "application/json" →
        h.getPayload lib r = h.gitlabPayload lib r)
    ∧ (r.Header.Get "Content-Type" ≠ "application/json" →
        h.getPayload lib r = h.githubPayload lib r) :=
  ⟨getPayload_json lib h r, getPayload_other lib h r⟩

/-- C6 amended, at samples: the exact content type selects format B, the
content type with a parameter selects format A. -/
theorem getPayload_exact_content_type_witness :
    (sampleHandler []).getPayload sampleStdlib (sampleJSONRequest sampleGitlabDoc "tok")
      = (sampleHandler []).gitlabPayload sampleStdlib (sampleJSONRequest sampleGitlabDoc "tok")
    ∧ (sampleHandler []).getPayload sampleStdlib sampleCharsetRequest
      = (sampleHandler []).githubPayload sampleStdlib sampleCharsetRequest :=
  ⟨(getPayload_exact_content_type sampleStdlib (sampleHandler [])
      (sampleJSONRequest sampleGitlabDoc "tok")).1 rfl,
   (getPayload_exact_content_type sampleStdlib (sampleHandler []) sampleCharsetRequest).2
      (by decide)⟩

/-! ## Theorems: the endpoint -/

/-- The four ways a request can fail before dispatch: the payload does not
normalise (undecodable, or no commits), or it normalises to a notification whose
repository is not registered, or whose secret is refused by the entry found. -/
theorem getRepositoryPath_error_of_failure (lib : Stdlib) (h : handler σ) (r : Request)
    (hfail : (∃ err, h.getPayload lib r = .error err)
      ∨ ∃ pl, h.getPayload lib r = .ok pl
          ∧ (List.lookup pl.Repo h.repos = none
            ∨ ∃ e, List.lookup pl.Repo h.repos = some e
                ∧ e.Secret ≠ "" ∧ pl.Secret ≠ e.Secret)) :
    ∃ err, h.getRepositoryPath lib r = .error err := by
  rcases hfail with ⟨err, herr⟩ | ⟨pl, hpl, hno | ⟨e, he, hs, hp⟩⟩
  · exact ⟨err, getRepositoryPath_of_getPayload_error lib h r err herr⟩
  · exact ⟨.notSupported pl.Repo, by simp only [getRepositoryPath, hpl, hno]⟩
  · refine ⟨.secretNotValid pl.Secret, ?_⟩
    rw [getRepositoryPath_of_entry lib h r pl e hpl he]
    simp only [hs, hp, ne_eq, not_false_eq_true, and_self, if_true]

/-- On a failing `getRepositoryPath`, `handle` returns the handler it was given
and the writer after `http.Error(w, "Bad Request", 400)`. -/
theorem handle_of_error (lib : Stdlib) (h : handler σ) (w : ResponseWriter) (r : Request)
    (err : error) (herr : h.getRepositoryPath lib r = .error err) :
    h.handle lib w r = (h, httpError w "Bad Request" StatusBadRequest) := by
  simp only [handle, herr]

/-- On a successful `getRepositoryPath`, `handle` sends the returned paths on the
channel and leaves the writer untouched. -/
theorem handle_of_ok (lib : Stdlib) (h : handler σ) (w : ResponseWriter) (r : Request)
    (paths : Slice String) (hok : h.getRepositoryPath lib r = .ok paths) :
    h.handle lib w r = ({ h with event := h.event ++ [paths] }, w) := by
  simp only [handle, hok]

/-- `http.Error` on a new recorder: status as given, body the message and a
newline. -/
theorem httpError_NewRecorder (msg : String) (code : Nat) :
    (httpError NewRecorder msg code).Code = code
    ∧ (httpError NewRecorder msg code).Body = msg ++ "\n" := by
  constructor
  · rfl
  · show "" ++ (msg ++ "\n") = msg ++ "\n"
    exact String.empty_append _

/-- The receive loop after one more item was sent: the puller has been called
on the earlier items and then once on the new one. -/
theorem pull_after_send (Pull : σ → Slice String → σ × Option error) (h : handler σ)
    (item : Slice String) :
    (({ h with event := h.event ++ [item] } : handler σ).pull Pull).puller
      = (Pull (h.pull Pull).puller item).1 := by
  simp only [pull, List.foldl_append, List.foldl_cons, List.foldl_nil]

/-- C7: when the Normaliser fails (undecodable payload, zero commits) or the
Authoriser fails (unregistered repository, secret mismatch), `handle` answers
with status 400 and returns the handler unchanged: the channel holds the same
items, nothing is sent on it, and the receive loop therefore hands the puller
exactly what it would have without the request. -/
theorem handle_failure_no_dispatch (lib : Stdlib) (h : handler σ) (w : ResponseWriter)
    (r : Request)
    (hfail : (∃ err, h.getPayload lib r = .error err)
      ∨ ∃ pl, h.getPayload lib r = .ok pl
          ∧ (List.lookup pl.Repo h.repos = none
            ∨ ∃ e, List.lookup pl.Repo h.repos = some e
                ∧ e.Secret ≠ "" ∧ pl.Secret ≠ e.Secret)) :
    (h.handle lib w r).1 = h
    ∧ (h.handle lib w r).1.event = h.event
    ∧ (h.handle lib w r).2 = httpError w "Bad Request" StatusBadRequest
    ∧ (h.handle lib NewRecorder r).2.Code = 400
    ∧ ∀ Pull : σ → Slice String → σ × Option error,
        (h.handle lib w r).1.pull Pull = h.pull Pull := by
  obtain ⟨err, herr⟩ := getRepositoryPath_error_of_failure lib h r hfail
  rw [handle_of_error lib h w r err herr, handle_of_error lib h NewRecorder r err herr]
  exact ⟨rfl, rfl, rfl, rfl, fun _ => rfl⟩

/-- C7 at the scenario P9: header secret `wrong`, registry secret `right`;
status 400 and an empty channel. -/
theorem handle_failure_no_dispatch_witness :
    ((sampleHandler [("demo", ⟨"right", some ["/a"]⟩)]).handle sampleStdlib NewRecorder
        (sampleJSONRequest sampleGitlabDoc "wrong")).1.event = []
    ∧ ((sampleHandler [("demo", ⟨"right", some ["/a"]⟩)]).handle sampleStdlib NewRecorder
        (sampleJSONRequest sampleGitlabDoc "wrong")).2.Code = 400 :=
  ⟨(handle_failure_no_dispatch sampleStdlib (sampleHandler [("demo", ⟨"right", some ["/a"]⟩)])
      NewRecorder (sampleJSONRequest sampleGitlabDoc "wrong")
      (Or.inr ⟨{ Name := "ann", Email := "a@x.io", CommitId := "c1", Message := "m1",
                 Repo := "demo", Secret := "wrong" }, rfl,
        Or.inr ⟨⟨"right", some ["/a"]⟩, rfl, by decide, by decide⟩⟩)).2.1,
   (handle_failure_no_dispatch sampleStdlib (sampleHandler [("demo", ⟨"right", some ["/a"]⟩)])
      NewRecorder (sampleJSONRequest sampleGitlabDoc "wrong")
      (Or.inr ⟨{ Name := "ann", Email := "a@x.io", CommitId := "c1", Message := "m1",
                 Repo := "demo", Secret := "wrong" }, rfl,
        Or.inr ⟨⟨"right", some ["/a"]⟩, rfl, by decide, by decide⟩⟩)).2.2.2.1⟩

/-- C8: when the request normalises to `pl` and the registry entry `e` found
for `pl.Repo` authorises it, `handle` sends exactly one item on the channel, the
slice `e.Folders` itself, after the items already there; it writes nothing to
the response, so the status is 200; and the receive loop calls the puller once
more, with `e.Folders`. -/
theorem handle_success_dispatch (lib : Stdlib) (h : handler σ) (w : ResponseWriter)
    (r : Request) (pl : Payload) (e : config.Repo)
    (hpl : h.getPayload lib r = .ok pl) (he : List.lookup pl.Repo h.repos = some e)
    (hsec : e.Secret = "" ∨ pl.Secret = e.Secret) :
    (h.handle lib w r).1.event = h.event ++ [e.Folders]
    ∧ (h.handle lib w r).1.repos = h.repos
    ∧ (h.handle lib w r).2 = w
    ∧ (h.handle lib NewRecorder r).2.Code = StatusOK
    ∧ ∀ Pull : σ → Slice String → σ × Option error,
        ((h.handle lib w r).1.pull Pull).puller = (Pull (h.pull Pull).puller e.Folders).1 := by
  have hok : h.getRepositoryPath lib r = .ok e.Folders :=
    ((entry_folders_iff_secret lib h r pl e hpl he).2 hsec)
  rw [handle_of_ok lib h w r e.Folders hok, handle_of_ok lib h NewRecorder r e.Folders hok]
  exact ⟨rfl, rfl, rfl, rfl, fun Pull => pull_after_send Pull h e.Folders⟩

/-- C8 at the scenario P7: a format-A payload for `demo`, registry
`demo -> (secret "", paths ["/a"])`; exactly `["/a"]` is dispatched, status 200. -/
theorem handle_success_dispatch_witness :
    ((sampleHandler [("demo", ⟨"", some ["/a"]⟩)]).handle sampleStdlib NewRecorder
        sampleFormRequest).1.event = [] ++ [some ["/a"]]
    ∧ ((sampleHandler [("demo", ⟨"", some ["/a"]⟩)]).handle sampleStdlib NewRecorder
        sampleFormRequest).2.Code = StatusOK :=
  ⟨(handle_success_dispatch sampleStdlib (sampleHandler [("demo", ⟨"", some ["/a"]⟩)])
      NewRecorder sampleFormRequest
      { Name := "ann", Email := "a@x.io", CommitId := "c1", Message := "m1", Repo := "demo" }
      ⟨"", some ["/a"]⟩ rfl rfl (Or.inl rfl)).1,
   (handle_success_dispatch sampleStdlib (sampleHandler [("demo", ⟨"", some ["/a"]⟩)])
      NewRecorder sampleFormRequest
      { Name := "ann", Email := "a@x.io", CommitId := "c1", Message := "m1", Repo := "demo" }
      ⟨"", some ["/a"]⟩ rfl rfl (Or.inl rfl)).2.2.2.1⟩

/-- C9: any two failing requests, against any two registries, get the same
response from the same writer: `http.Error(w, "Bad Request", 400)`, which is
computed from the writer alone. On a new recorder it is status 400 with the body
`Bad Request` and a newline; neither the request (so not the presented secret)
nor the handler (so not the registry) enters it. -/
theorem handle_failure_response_uniform {τ : Type} (lib : Stdlib) (h1 : handler σ)
    (h2 : handler τ) (w : ResponseWriter) (r1 r2 : Request)
    (hf1 : ∃ err, h1.getRepositoryPath lib r1 = .error err)
    (hf2 : ∃ err, h2.getRepositoryPath lib r2 = .error err) :
    (h1.handle lib w r1).2 = (h2.handle lib w r2).2
    ∧ (h1.handle lib w r1).2 = httpError w "Bad Request" StatusBadRequest
    ∧ (h1.handle lib NewRecorder r1).2.Code = 400
    ∧ (h1.handle lib NewRecorder r1).2.Body = "Bad Request\n"
    ∧ (h2.handle lib NewRecorder r2).2.Code = 400
    ∧ (h2.handle lib NewRecorder r2).2.Body = "Bad Request\n" := by
  obtain ⟨e1, he1⟩ := hf1
  obtain ⟨e2, he2⟩ := hf2
  rw [handle_of_error lib h1 w r1 e1 he1, handle_of_error lib h2 w r2 e2 he2,
    handle_of_error lib h1 NewRecorder r1 e1 he1, handle_of_error lib h2 NewRecorder r2 e2 he2]
  exact ⟨rfl, rfl, rfl, rfl, rfl, rfl⟩

/-- C9 at samples: an unregistered repository against an empty registry, and a
wrong secret against a registry holding `demo`, answer alike. -/
theorem handle_failure_response_uniform_witness :
    ((sampleHandler []).handle sampleStdlib NewRecorder sampleFormRequest).2
      = ((sampleHandler [("demo", ⟨"right", some ["/a"]⟩)]).handle sampleStdlib NewRecorder
          (sampleJSONRequest sampleGitlabDoc "wrong")).2 :=
  (handle_failure_response_uniform sampleStdlib (sampleHandler [])
    (sampleHandler [("demo", ⟨"right", some ["/a"]⟩)]) NewRecorder sampleFormRequest
    (sampleJSONRequest sampleGitlabDoc "wrong")
    ⟨.notSupported "demo", rfl⟩ ⟨.secretNotValid "wrong", rfl⟩).1


/-! ## Theorems: the path locks -/

namespace git

/-- The program point of a goroutine after `goto`. -/
theorem goto_threads (s : System) (t : Nat) (pc : PC) (t2 : Nat) :
    (s.goto t pc).threads t2 = if t2 = t then pc else s.threads t2 := by
  simp only [System.goto, Function.update_apply]

/-- A successful `Lock` found the mutex free and marks it held. -/
theorem Heap.Lock_eq_some (hp hp2 : Heap) (m : Nat) (h : hp.Lock m = some hp2) :
    hp.locked m = false
    ∧ hp2 = { hp with locked := Function.update hp.locked m true } := by
  unfold Heap.Lock at h
  by_cases hl : hp.locked m = true
  · rw [if_pos hl] at h
    cases h
  · rw [if_neg hl] at h
    refine ⟨by simpa using hl, ?_⟩
    cases h
    rfl

/-- A `Lock` that does not return found the mutex held. -/
theorem Heap.Lock_eq_none (hp : Heap) (m : Nat) (h : hp.Lock m = none) :
    hp.locked m = true := by
  unfold Heap.Lock at h
  by_cases hl : hp.locked m = true
  · exact hl
  · rw [if_neg hl] at h
    cases h

/-- Reading an association list after one insertion in front. -/
theorem lookup_cons_eq (k a : String) (b : Nat) (es : List (String × Nat)) :
    List.lookup k ((a, b) :: es) = if k = a then some b else List.lookup k es := by
  by_cases h : k = a
  · subst h
    simp [List.lookup]
  · have hb : (k == a) = false := by simpa using h
    simp [List.lookup, hb, h]

/-- The invariant holds after `git.New`. -/
theorem Inv.init (timeout : Int) : Inv (System.init timeout) := by
  refine ⟨?_, ?_, ?_, ?_, ?_, ?_, ?_⟩
  · exact Nat.zero_lt_one
  · intro path m h
    cases h
  · intro p1 p2 m h
    cases h
  · intro t path m h
    cases h
  · intro t m h
    cases h
  · intro m
    constructor
    · intro h
      have hf : (System.init timeout).heap.locked m = false := by
        show Function.update (fun _ => false) 0 false m = false
        by_cases hm : m = 0
        · rw [hm, Function.update_same]
        · rw [Function.update_noteq hm]
      rw [hf] at h
      cases h
    · rintro ⟨t, h⟩
      cases h
  · intro t1 t2 m h
    cases h

/-- A step that neither takes nor gives back a mutex keeps the invariant. -/
theorem Inv.goto_same {s : System} (hI : Inv s) (t : Nat) (pc : PC)
    (hheld : pc.held s.p.lock = (s.threads t).held s.p.lock)
    (hvalid : ∀ path m, pc.pathLock = some (path, m) →
      List.lookup path s.p.mutexes = some m) :
    Inv (s.goto t pc) := by
  have hth : ∀ t2, ((s.goto t pc).threads t2).held s.p.lock
      = (s.threads t2).held s.p.lock := by
    intro t2
    rw [goto_threads]
    by_cases h : t2 = t
    · rw [if_pos h, h, hheld]
    · rw [if_neg h]
  refine ⟨hI.lock_alloc, hI.map_alloc, hI.map_inj, ?_, ?_, ?_, ?_⟩
  · intro t2 path m h
    rw [goto_threads] at h
    by_cases ht : t2 = t
    · rw [if_pos ht] at h
      exact hvalid path m h
    · rw [if_neg ht] at h
      exact hI.thread_map t2 path m h
  · intro t2 m h
    exact hI.held_alloc t2 m ((hth t2).symm.trans h)
  · intro m
    constructor
    · intro h
      obtain ⟨t2, h2⟩ := (hI.locked_iff m).1 h
      exact ⟨t2, (hth t2).trans h2⟩
    · rintro ⟨t2, h2⟩
      exact (hI.locked_iff m).2 ⟨t2, (hth t2).symm.trans h2⟩
  · intro t1 t2 m h1 h2
    exact hI.held_unique t1 t2 m ((hth t1).symm.trans h1) ((hth t2).symm.trans h2)

/-- A step that takes a free mutex keeps the invariant. -/
theorem Inv.acquire {s : System} (hI : Inv s) (t m : Nat) (pc : PC) (hp : Heap)
    (hlock : s.heap.Lock m = some hp)
    (hold : (s.threads t).held s.p.lock = none)
    (hnew : pc.held s.p.lock = some m)
    (hm : m < s.heap.next)
    (hvalid : ∀ path m2, pc.pathLock = some (path, m2) →
      List.lookup path s.p.mutexes = some m2) :
    Inv (({ s with heap := hp } : System).goto t pc) := by
  obtain ⟨hfree, hhp⟩ := Heap.Lock_eq_some s.heap hp m hlock
  subst hhp
  have hth : ∀ t2, t2 ≠ t →
      ((({ s with heap := { s.heap with locked := Function.update s.heap.locked m true } }
        : System).goto t pc).threads t2) = s.threads t2 := by
    intro t2 h
    rw [goto_threads, if_neg h]
  have htt : ((({ s with heap := { s.heap with locked := Function.update s.heap.locked m true } }
        : System).goto t pc).threads t) = pc := by
    rw [goto_threads, if_pos rfl]
  refine ⟨hI.lock_alloc, hI.map_alloc, hI.map_inj, ?_, ?_, ?_, ?_⟩
  · intro t2 path m2 h
    by_cases ht : t2 = t
    · rw [ht, htt] at h
      exact hvalid path m2 h
    · rw [hth t2 ht] at h
      exact hI.thread_map t2 path m2 h
  · intro t2 m2 h
    by_cases ht : t2 = t
    · rw [ht, htt] at h
      have h3 : pc.held s.p.lock = some m2 := h
      rw [hnew] at h3
      cases h3
      exact hm
    · rw [hth t2 ht] at h
      exact hI.held_alloc t2 m2 h
  · intro m2
    show Function.update s.heap.locked m true m2 = true ↔ _
    constructor
    · intro h
      by_cases hm2 : m2 = m
      · refine ⟨t, ?_⟩
        rw [htt, hm2]
        exact hnew
      · rw [Function.update_noteq hm2] at h
        obtain ⟨t2, h2⟩ := (hI.locked_iff m2).1 h
        have ht : t2 ≠ t := by
          intro heq
          rw [heq, hold] at h2
          cases h2
        refine ⟨t2, ?_⟩
        rw [hth t2 ht]
        exact h2
    · rintro ⟨t2, h2⟩
      by_cases hm2 : m2 = m
      · rw [hm2, Function.update_same]
      · rw [Function.update_noteq hm2]
        by_cases ht : t2 = t
        · rw [ht, htt] at h2
          have h3 : pc.held s.p.lock = some m2 := h2
          rw [hnew] at h3
          cases h3
          exact absurd rfl hm2
        · rw [hth t2 ht] at h2
          exact (hI.locked_iff m2).2 ⟨t2, h2⟩
  · intro t1 t2 m2 h1 h2
    have key : ∀ t3, t3 ≠ t →
        ((({ s with heap := { s.heap with locked := Function.update s.heap.locked m true } }
          : System).goto t pc).threads t3).held s.p.lock = some m2 → m2 ≠ m := by
      intro t3 ht3 h3 hm2
      rw [hth t3 ht3, hm2] at h3
      have hl := (hI.locked_iff m).2 ⟨t3, h3⟩
      rw [hfree] at hl
      cases hl
    have top : ((({ s with heap := { s.heap with locked := Function.update s.heap.locked m true } }
          : System).goto t pc).threads t).held s.p.lock = some m2 → m2 = m := by
      intro h3
      rw [htt, hnew] at h3
      cases h3
      rfl
    by_cases ht1 : t1 = t
    · by_cases ht2 : t2 = t
      · rw [ht1, ht2]
      · rw [ht1] at h1
        exact absurd (top h1) (key t2 ht2 h2)
    · by_cases ht2 : t2 = t
      · rw [ht2] at h2
        exact absurd (top h2) (key t1 ht1 h1)
      · rw [hth t1 ht1] at h1
        rw [hth t2 ht2] at h2
        exact hI.held_unique t1 t2 m2 h1 h2

/-- A step that gives back the mutex its goroutine holds keeps the invariant. -/
theorem Inv.release {s : System} (hI : Inv s) (t m : Nat) (pc : PC)
    (hold : (s.threads t).held s.p.lock = some m)
    (hnew : pc.held s.p.lock = none)
    (hvalid : ∀ path m2, pc.pathLock = some (path, m2) →
      List.lookup path s.p.mutexes = some m2) :
    Inv (({ s with heap := s.heap.Unlock m } : System).goto t pc) := by
  have hth : ∀ t2, t2 ≠ t →
      ((({ s with heap := s.heap.Unlock m } : System).goto t pc).threads t2)
        = s.threads t2 := by
    intro t2 h
    rw [goto_threads, if_neg h]
  have htt : ((({ s with heap := s.heap.Unlock m } : System).goto t pc).threads t) = pc := by
    rw [goto_threads, if_pos rfl]
  have hother : ∀ t2 m2,
      ((({ s with heap := s.heap.Unlock m } : System).goto t pc).threads t2).held s.p.lock
        = some m2 → t2 ≠ t ∧ (s.threads t2).held s.p.lock = some m2 ∧ m2 ≠ m := by
    intro t2 m2 h
    by_cases ht : t2 = t
    · rw [ht, htt, hnew] at h
      cases h
    · rw [hth t2 ht] at h
      refine ⟨ht, h, ?_⟩
      intro hm2
      rw [hm2] at h
      exact ht (hI.held_unique t2 t m h hold)
  refine ⟨hI.lock_alloc, hI.map_alloc, hI.map_inj, ?_, ?_, ?_, ?_⟩
  · intro t2 path m2 h
    by_cases ht : t2 = t
    · rw [ht, htt] at h
      exact hvalid path m2 h
    · rw [hth t2 ht] at h
      exact hI.thread_map t2 path m2 h
  · intro t2 m2 h
    exact hI.held_alloc t2 m2 (hother t2 m2 h).2.1
  · intro m2
    show Function.update s.heap.locked m false m2 = true ↔ _
    constructor
    · intro h
      by_cases hm2 : m2 = m
      · rw [hm2, Function.update_same] at h
        cases h
      · rw [Function.update_noteq hm2] at h
        obtain ⟨t2, h2⟩ := (hI.locked_iff m2).1 h
        have ht : t2 ≠ t := by
          intro heq
          rw [heq, hold] at h2
          cases h2
          exact hm2 rfl
        refine ⟨t2, ?_⟩
        rw [hth t2 ht]
        exact h2
    · rintro ⟨t2, h2⟩
      obtain ⟨_, h3, hm2⟩ := hother t2 m2 h2
      rw [Function.update_noteq hm2]
      exact (hI.locked_iff m2).2 ⟨t2, h3⟩
  · intro t1 t2 m2 h1 h2
    exact hI.held_unique t1 t2 m2 (hother t1 m2 h1).2.1 (hother t2 m2 h2).2.1

/-- Inserting a new mutex for a path that has none keeps the invariant. -/
theorem Inv.alloc {s : System} (hI : Inv s) (path : String)
    (hnone : List.lookup path s.p.mutexes = none) :
    Inv ({ s with p := { s.p with mutexes := (path, s.heap.next) :: s.p.mutexes }
                  heap := s.heap.newMutex.2 } : System) := by
  have hlook : ∀ k, List.lookup k ((path, s.heap.next) :: s.p.mutexes)
      = if k = path then some s.heap.next else List.lookup k s.p.mutexes :=
    fun k => lookup_cons_eq k path s.heap.next s.p.mutexes
  have hold : ∀ k m, List.lookup k s.p.mutexes = some m → k ≠ path := by
    intro k m h hk
    rw [hk, hnone] at h
    cases h
  refine ⟨?_, ?_, ?_, ?_, ?_, ?_, ?_⟩
  · exact Nat.lt_succ_of_lt hI.lock_alloc
  · intro k m h
    have h2 : List.lookup k ((path, s.heap.next) :: s.p.mutexes) = some m := h
    rw [hlook] at h2
    by_cases hk : k = path
    · rw [if_pos hk] at h2
      cases h2
      exact ⟨Nat.lt_succ_self _, Nat.ne_of_gt hI.lock_alloc⟩
    · rw [if_neg hk] at h2
      exact ⟨Nat.lt_succ_of_lt (hI.map_alloc k m h2).1, (hI.map_alloc k m h2).2⟩
  · intro k1 k2 m h1 h2
    have g1 : List.lookup k1 ((path, s.heap.next) :: s.p.mutexes) = some m := h1
    have g2 : List.lookup k2 ((path, s.heap.next) :: s.p.mutexes) = some m := h2
    rw [hlook] at g1 g2
    by_cases hk1 : k1 = path
    · by_cases hk2 : k2 = path
      · rw [hk1, hk2]
      · rw [if_pos hk1] at g1
        rw [if_neg hk2] at g2
        cases g1
        exact absurd (hI.map_alloc k2 _ g2).1 (Nat.lt_irrefl _)
    · by_cases hk2 : k2 = path
      · rw [if_neg hk1] at g1
        rw [if_pos hk2] at g2
        cases g2
        exact absurd (hI.map_alloc k1 _ g1).1 (Nat.lt_irrefl _)
      · rw [if_neg hk1] at g1
        rw [if_neg hk2] at g2
        exact hI.map_inj k1 k2 m g1 g2
  · intro t k m h
    have h2 := hI.thread_map t k m h
    show List.lookup k ((path, s.heap.next) :: s.p.mutexes) = some m
    rw [hlook, if_neg (hold k m h2)]
    exact h2
  · intro t m h
    exact Nat.lt_succ_of_lt (hI.held_alloc t m h)
  · intro m
    show Function.update s.heap.locked s.heap.next false m = true ↔ _
    constructor
    · intro h
      by_cases hm : m = s.heap.next
      · rw [hm, Function.update_same] at h
        cases h
      · rw [Function.update_noteq hm] at h
        exact (hI.locked_iff m).1 h
    · rintro ⟨t, h⟩
      have hlt := hI.held_alloc t m h
      rw [Function.update_noteq (Nat.ne_of_lt hlt)]
      exact (hI.locked_iff m).2 ⟨t, h⟩
  · exact hI.held_unique

/-- Every step of the system keeps the invariant. -/
theorem Inv.step {s s2 : System} (hI : Inv s) (a : Action) (hstep : s.step a = some s2) :
    Inv s2 := by
  cases a with
  | Pull t paths =>
    cases hpc : s.threads t with
    | idle =>
      simp only [System.step, hpc, Option.some.injEq] at hstep
      subst hstep
      exact hI.goto_same t _ (by rw [hpc]; rfl) (fun _ _ h => by cases h)
    | _ => simp [System.step, hpc] at hstep
  | cmdDone t o =>
    cases hpc : s.threads t with
    | cmdRun path m rest =>
      simp only [System.step, hpc, Option.some.injEq] at hstep
      subst hstep
      refine hI.goto_same t _ (by rw [hpc]; rfl) ?_
      intro k m2 h
      exact hI.thread_map t k m2 (by rw [hpc]; exact h)
    | _ => simp [System.step, hpc] at hstep
  | step t =>
    cases hpc : s.threads t with
    | idle => simp [System.step, hpc] at hstep
    | done => simp [System.step, hpc] at hstep
    | cmdRun path m rest => simp [System.step, hpc] at hstep
    | mutexedPull paths =>
      cases paths with
      | none =>
        simp only [System.step, hpc, Option.some.injEq] at hstep
        subst hstep
        exact hI.goto_same t _ (by rw [hpc]; rfl) (fun _ _ h => by cases h)
      | some l =>
        simp only [System.step, hpc, Option.some.injEq] at hstep
        subst hstep
        exact hI.goto_same t _ (by rw [hpc]; rfl) (fun _ _ h => by cases h)
    | forLoop rest =>
      cases rest with
      | nil =>
        simp only [System.step, hpc, Option.some.injEq] at hstep
        subst hstep
        exact hI.goto_same t _ (by rw [hpc]; rfl) (fun _ _ h => by cases h)
      | cons path rest =>
        simp only [System.step, hpc, Option.some.injEq] at hstep
        subst hstep
        exact hI.goto_same t _ (by rw [hpc]; rfl) (fun _ _ h => by cases h)
    | getMutexLock path rest =>
      cases hl : s.heap.Lock s.p.lock with
      | none => simp [System.step, hpc, hl] at hstep
      | some hp =>
        simp only [System.step, hpc, hl, Option.some.injEq] at hstep
        subst hstep
        exact hI.acquire t s.p.lock _ hp hl (by rw [hpc]; rfl) rfl hI.lock_alloc
          (fun _ _ h => by cases h)
    | getMutexBody path rest =>
      cases hlk : List.lookup path s.p.mutexes with
      | some m =>
        simp only [System.step, hpc, getMutexBody, hlk, Option.some.injEq] at hstep
        subst hstep
        refine hI.release t s.p.lock (.mLock path m rest) (by rw [hpc]; rfl) rfl ?_
        intro k m2 h
        cases h
        exact hlk
      | none =>
        simp only [System.step, hpc, getMutexBody, hlk, Option.some.injEq] at hstep
        subst hstep
        have h1 := hI.alloc path hlk
        refine h1.release t s.p.lock (.mLock path s.heap.next rest) ?_ rfl ?_
        · show (s.threads t).held s.p.lock = some s.p.lock
          rw [hpc]
          rfl
        · intro k m2 h
          cases h
          show List.lookup path ((path, s.heap.next) :: s.p.mutexes) = some s.heap.next
          rw [lookup_cons_eq, if_pos rfl]
    | mLock path m rest =>
      have hmap : List.lookup path s.p.mutexes = some m :=
        hI.thread_map t path m (by rw [hpc]; rfl)
      cases hl : s.heap.Lock m with
      | none => simp [System.step, hpc, hl] at hstep
      | some hp =>
        simp only [System.step, hpc, hl, Option.some.injEq] at hstep
        subst hstep
        refine hI.acquire t m _ hp hl (by rw [hpc]; rfl) rfl (hI.map_alloc path m hmap).1 ?_
        intro k m2 h
        cases h
        exact hmap
    | mUnlock path m rest o =>
      simp only [System.step, hpc, Option.some.injEq] at hstep
      subst hstep
      exact hI.release t m _ (by rw [hpc]; rfl) rfl (fun _ _ h => by cases h)

/-- Every schedule keeps the invariant. -/
theorem Inv.exec {s s2 : System} (hI : Inv s) (sched : List Action)
    (hrun : s.exec sched = some s2) : Inv s2 := by
  induction sched generalizing s with
  | nil =>
    simp only [System.exec, Option.some.injEq] at hrun
    subst hrun
    exact hI
  | cons a rest ih =>
    cases hs : s.step a with
    | none => simp [System.exec, hs] at hrun
    | some s1 =>
      simp only [System.exec, hs] at hrun
      exact ih (hI.step a hs) hrun

/-- The two steps a goroutine takes through `getMutex`, when the map's mutex is
free, are the function `getMutex`: the puller and the mutexes it leaves, and the
address it returns. -/
theorem exec_getMutex (s : System) (t : Nat) (path : String) (rest : List String)
    (hpc : s.threads t = .getMutexLock path rest)
    (p2 : simplePuller) (hp2 : Heap) (m : Nat)
    (hg : getMutex s.p s.heap path = some (p2, hp2, m)) :
    s.exec [.step t, .step t]
      = some (({ s with p := p2, heap := hp2 } : System).goto t (.mLock path m rest)) := by
  unfold getMutex at hg
  cases hl : s.heap.Lock s.p.lock with
  | none =>
    rw [hl] at hg
    cases hg
  | some hp =>
    rw [hl] at hg
    simp only [Option.some.injEq, Prod.mk.injEq] at hg
    obtain ⟨h1, h2, h3⟩ := hg
    subst h1 h2 h3
    simp only [System.exec, System.step, hpc, hl, System.goto, Function.update_same,
      Function.update_idem]

/-- C10: in every state reached from a new puller by any schedule of `Pull`
calls and goroutine steps, (1) two goroutines running `git pull` in the same
path are the same goroutine, so at most one pull of a path is executing;
(2) different paths have different mutexes; (3) a goroutine waiting at
`m.Lock()` for path `Q` waits only while another goroutine holds the mutex of
that same path `Q`; (4) the only other wait, at `p.lock.Lock()`, is for a
goroutine inside `getMutex`, which can take its next step at once. -/
theorem pullPath_mutual_exclusion (timeout : Int) (sched : List Action) (s : System)
    (hrun : (System.init timeout).exec sched = some s) :
    (∀ P t1 t2 m1 m2 r1 r2, s.threads t1 = .cmdRun P m1 r1 →
        s.threads t2 = .cmdRun P m2 r2 → t1 = t2)
    ∧ (∀ P Q mP mQ, P ≠ Q → List.lookup P s.p.mutexes = some mP →
        List.lookup Q s.p.mutexes = some mQ → mP ≠ mQ)
    ∧ (∀ t Q m rest, s.threads t = .mLock Q m rest → s.step (.step t) = none →
        ∃ t2, t2 ≠ t ∧ ((∃ r, s.threads t2 = .cmdRun Q m r)
          ∨ (∃ r o, s.threads t2 = .mUnlock Q m r o)))
    ∧ (∀ t Q rest, s.threads t = .getMutexLock Q rest → s.step (.step t) = none →
        ∃ t2 Q2 r2, s.threads t2 = .getMutexBody Q2 r2 ∧ s.step (.step t2) ≠ none) := by
  have hI : Inv s := (Inv.init timeout).exec sched hrun
  refine ⟨?_, ?_, ?_, ?_⟩
  · intro P t1 t2 m1 m2 r1 r2 h1 h2
    have g1 : List.lookup P s.p.mutexes = some m1 :=
      hI.thread_map t1 P m1 (by rw [h1]; rfl)
    have g2 : List.lookup P s.p.mutexes = some m2 :=
      hI.thread_map t2 P m2 (by rw [h2]; rfl)
    have hm : m2 = m1 := by
      rw [g1] at g2
      cases g2
      rfl
    exact hI.held_unique t1 t2 m1 (by rw [h1]; rfl) (by rw [h2, hm]; rfl)
  · intro P Q mP mQ hne hP hQ heq
    rw [heq] at hP
    exact hne (hI.map_inj P Q mQ hP hQ)
  · intro t Q m rest hpc hstep
    have hmap : List.lookup Q s.p.mutexes = some m :=
      hI.thread_map t Q m (by rw [hpc]; rfl)
    have hlocked : s.heap.locked m = true := by
      cases hl : s.heap.Lock m with
      | none => exact Heap.Lock_eq_none s.heap m hl
      | some hp => simp [System.step, hpc, hl] at hstep
    obtain ⟨t2, h2⟩ := (hI.locked_iff m).1 hlocked
    have hne : t2 ≠ t := by
      intro heq
      rw [heq, hpc] at h2
      cases h2
    refine ⟨t2, hne, ?_⟩
    cases hpc2 : s.threads t2 with
    | getMutexBody Q2 r2 =>
      rw [hpc2] at h2
      have h3 : s.p.lock = m := by
        cases h2
        rfl
      exact absurd h3.symm (hI.map_alloc Q m hmap).2
    | cmdRun Q2 m2 r2 =>
      rw [hpc2] at h2
      have h3 : m2 = m := by
        cases h2
        rfl
      subst h3
      have hq : Q2 = Q :=
        hI.map_inj Q2 Q m2 (hI.thread_map t2 Q2 m2 (by rw [hpc2]; rfl)) hmap
      subst hq
      exact Or.inl ⟨r2, rfl⟩
    | mUnlock Q2 m2 r2 o2 =>
      rw [hpc2] at h2
      have h3 : m2 = m := by
        cases h2
        rfl
      subst h3
      have hq : Q2 = Q :=
        hI.map_inj Q2 Q m2 (hI.thread_map t2 Q2 m2 (by rw [hpc2]; rfl)) hmap
      subst hq
      exact Or.inr ⟨r2, o2, rfl⟩
    | idle => rw [hpc2] at h2; cases h2
    | mutexedPull paths => rw [hpc2] at h2; cases h2
    | forLoop r2 => rw [hpc2] at h2; cases h2
    | getMutexLock Q2 r2 => rw [hpc2] at h2; cases h2
    | mLock Q2 m2 r2 => rw [hpc2] at h2; cases h2
    | done => rw [hpc2] at h2; cases h2
  · intro t Q rest hpc hstep
    have hlocked : s.heap.locked s.p.lock = true := by
      cases hl : s.heap.Lock s.p.lock with
      | none => exact Heap.Lock_eq_none s.heap s.p.lock hl
      | some hp => simp [System.step, hpc, hl] at hstep
    obtain ⟨t2, h2⟩ := (hI.locked_iff s.p.lock).1 hlocked
    cases hpc2 : s.threads t2 with
    | getMutexBody Q2 r2 =>
      refine ⟨t2, Q2, r2, hpc2, ?_⟩
      simp [System.step, hpc2]
    | cmdRun Q2 m2 r2 =>
      rw [hpc2] at h2
      have h3 : m2 = s.p.lock := by
        cases h2
        rfl
      exact absurd h3
        (hI.map_alloc Q2 m2 (hI.thread_map t2 Q2 m2 (by rw [hpc2]; rfl))).2
    | mUnlock Q2 m2 r2 o2 =>
      rw [hpc2] at h2
      have h3 : m2 = s.p.lock := by
        cases h2
        rfl
      exact absurd h3
        (hI.map_alloc Q2 m2 (hI.thread_map t2 Q2 m2 (by rw [hpc2]; rfl))).2
    | idle => rw [hpc2] at h2; cases h2
    | mutexedPull paths => rw [hpc2] at h2; cases h2
    | forLoop r2 => rw [hpc2] at h2; cases h2
    | getMutexLock Q2 r2 => rw [hpc2] at h2; cases h2
    | mLock Q2 m2 r2 => rw [hpc2] at h2; cases h2
    | done => rw [hpc2] at h2; cases h2

/-- C10 at a sample: in `sampleSystem` goroutine 1 waits for the mutex of `/a`,
and the goroutine it waits for is pulling `/a`. -/
theorem pullPath_mutual_exclusion_witness :
    ∃ t2, t2 ≠ 1 ∧ ((∃ r, sampleSystem.threads t2 = .cmdRun "/a" 1 r)
      ∨ (∃ r o, sampleSystem.threads t2 = .mUnlock "/a" 1 r o)) :=
  (pullPath_mutual_exclusion 10 sampleSchedule sampleSystem rfl).2.2.1 1 "/a" 1 ["/b"]
    (by decide) rfl

/-- While goroutine 0 holds the mutex of `/a` and goroutine 1 waits for it,
goroutine 2 reaches its `git pull` in `/b` without waiting. -/
theorem sampleSchedule2_runs :
    ∃ s, (System.init 10).exec sampleSchedule2 = some s
      ∧ s.threads 0 = .cmdRun "/a" 1 []
      ∧ s.threads 1 = .mLock "/a" 1 ["/b"]
      ∧ s.threads 2 = .cmdRun "/b" 2 [] :=
  ⟨((System.init 10).exec sampleSchedule2).getD (System.init 10), rfl, by decide, by decide,
    by decide⟩

/-! ## Theorems: the puller run without interruption -/

/-- What a returning `getMutex` did: it found `p.lock` free, and either found
the path in the map, or inserted a new mutex at the next free address. In both
cases `p.lock` was locked and unlocked again. -/
theorem getMutex_cases (p p2 : simplePuller) (hp hp2 : Heap) (path : String) (m : Nat)
    (h : getMutex p hp path = some (p2, hp2, m)) :
    hp.locked p.lock = false
    ∧ ((List.lookup path p.mutexes = some m ∧ p2 = p
        ∧ hp2 = { locked := Function.update (Function.update hp.locked p.lock true)
                    p.lock false
                  next := hp.next })
      ∨ (List.lookup path p.mutexes = none ∧ m = hp.next
        ∧ p2 = { p with mutexes := (path, hp.next) :: p.mutexes }
        ∧ hp2 = { locked := Function.update (Function.update
                    (Function.update hp.locked p.lock true) hp.next false) p.lock false
                  next := hp.next + 1 })) := by
  unfold getMutex at h
  cases hl : hp.Lock p.lock with
  | none =>
    rw [hl] at h
    cases h
  | some hp1 =>
    obtain ⟨hfree, hhp1⟩ := Heap.Lock_eq_some hp hp1 p.lock hl
    subst hhp1
    rw [hl] at h
    refine ⟨hfree, ?_⟩
    cases hlk : List.lookup path p.mutexes with
    | some m0 =>
      simp only [getMutexBody, hlk, Option.some.injEq, Prod.mk.injEq] at h
      obtain ⟨h1, h2, h3⟩ := h
      subst h1 h2 h3
      exact Or.inl ⟨rfl, rfl, rfl⟩
    | none =>
      simp only [getMutexBody, hlk, Option.some.injEq, Prod.mk.injEq] at h
      obtain ⟨h1, h2, h3⟩ := h
      subst h1 h2 h3
      exact Or.inr ⟨rfl, rfl, rfl, rfl⟩

/-- When `p.lock` is free, `getMutex` returns. -/
theorem getMutex_returns (p : simplePuller) (hp : Heap) (path : String)
    (hfree : hp.locked p.lock = false) :
    ∃ p2 hp2 m, getMutex p hp path = some (p2, hp2, m) := by
  have hl : hp.Lock p.lock
      = some { hp with locked := Function.update hp.locked p.lock true } := by
    simp only [Heap.Lock, hfree, Bool.false_eq_true, if_false]
  simp only [getMutex, hl]
  exact ⟨_, _, _, rfl⟩

/-- The effect of a returning `getMutex` on the registry and on the mutexes:
the returned address is the map's entry for the path, entries present before are
unchanged, an entry is either an old one or the one for this path, the lock state
of every allocated mutex is as before, `p.lock` is free, and a mutex created by
the call is free. -/
theorem getMutex_effect (p p2 : simplePuller) (hp hp2 : Heap) (path : String) (m : Nat)
    (h : getMutex p hp path = some (p2, hp2, m)) :
    p2.lock = p.lock ∧ p2.gitTimeout = p.gitTimeout
    ∧ List.lookup path p2.mutexes = some m
    ∧ (∀ k m0, List.lookup k p.mutexes = some m0 → List.lookup k p2.mutexes = some m0)
    ∧ (∀ k m0, List.lookup k p2.mutexes = some m0 →
        List.lookup k p.mutexes = some m0 ∨ (k = path ∧ m0 = m))
    ∧ (∀ m0, m0 < hp.next → hp2.locked m0 = hp.locked m0)
    ∧ hp2.locked p.lock = false
    ∧ (List.lookup path p.mutexes = none → hp2.locked m = false ∨ m = p.lock)
    ∧ hp.next ≤ hp2.next := by
  obtain ⟨hfree, ⟨hlk, h1, h2⟩ | ⟨hlk, h0, h1, h2⟩⟩ := getMutex_cases p p2 hp hp2 path m h
  · subst h1 h2
    refine ⟨rfl, rfl, hlk, fun _ _ h => h, fun _ _ h => Or.inl h, ?_, ?_, ?_, Nat.le_refl _⟩
    · intro m0 _
      show Function.update (Function.update hp.locked p2.lock true) p2.lock false m0 = _
      by_cases hm : m0 = p2.lock
      · rw [hm, Function.update_same, hfree]
      · rw [Function.update_noteq hm, Function.update_noteq hm]
    · show Function.update (Function.update hp.locked p2.lock true) p2.lock false p2.lock = _
      rw [Function.update_same]
    · intro hnone
      rw [hnone] at hlk
      cases hlk
  · subst h0 h1 h2
    refine ⟨rfl, rfl, ?_, ?_, ?_, ?_, ?_, ?_, Nat.le_succ _⟩
    · show List.lookup path ((path, hp.next) :: p.mutexes) = some hp.next
      rw [lookup_cons_eq, if_pos rfl]
    · intro k m0 hk
      show List.lookup k ((path, hp.next) :: p.mutexes) = some m0
      have hne : k ≠ path := by
        intro heq
        rw [heq, hlk] at hk
        cases hk
      rw [lookup_cons_eq, if_neg hne]
      exact hk
    · intro k m0 hk
      have hk2 : List.lookup k ((path, hp.next) :: p.mutexes) = some m0 := hk
      rw [lookup_cons_eq] at hk2
      by_cases hkp : k = path
      · rw [if_pos hkp] at hk2
        cases hk2
        exact Or.inr ⟨hkp, rfl⟩
      · rw [if_neg hkp] at hk2
        exact Or.inl hk2
    · intro m0 hlt
      show Function.update (Function.update (Function.update hp.locked p.lock true)
        hp.next false) p.lock false m0 = _
      by_cases hm : m0 = p.lock
      · rw [hm, Function.update_same, hfree]
      · rw [Function.update_noteq hm, Function.update_noteq (Nat.ne_of_lt hlt),
          Function.update_noteq hm]
    · show Function.update (Function.update (Function.update hp.locked p.lock true)
        hp.next false) p.lock false p.lock = _
      rw [Function.update_same]
    · intro _
      by_cases hm : hp.next = p.lock
      · exact Or.inr hm
      · refine Or.inl ?_
        show Function.update (Function.update (Function.update hp.locked p.lock true)
          hp.next false) p.lock false hp.next = _
        rw [Function.update_noteq hm, Function.update_same]

/-- A path is a key of the map exactly when reading the map at it succeeds. -/
theorem mem_keys_iff_lookup (k : String) (l : List (String × Nat)) :
    k ∈ l.map Prod.fst ↔ ∃ m, List.lookup k l = some m := by
  induction l with
  | nil => simp
  | cons a l ih =>
    obtain ⟨a1, a2⟩ := a
    rw [List.map_cons, List.mem_cons, lookup_cons_eq, ih]
    by_cases h : k = a1
    · simp [h]
    · simp [h]

/-- The registry of a new puller is well formed. -/
theorem RegWF_New (timeout : Int) (hp : Heap) : RegWF (New timeout hp).1 (New timeout hp).2 := by
  refine ⟨?_, ?_, ?_⟩
  · intro path m h
    cases h
  · intro p1 p2 m h
    cases h
  · exact List.nodup_nil

/-- A returning `getMutex` keeps the registry well formed. -/
theorem RegWF_getMutex (p p2 : simplePuller) (hp hp2 : Heap) (path : String) (m : Nat)
    (hwf : RegWF p hp) (h : getMutex p hp path = some (p2, hp2, m)) : RegWF p2 hp2 := by
  obtain ⟨_, ⟨hlk, h1, h2⟩ | ⟨hlk, h0, h1, h2⟩⟩ := getMutex_cases p p2 hp hp2 path m h
  · subst h1 h2
    exact ⟨hwf.map_alloc, hwf.map_inj, hwf.keys_nodup⟩
  · subst h0 h1 h2
    have hlook : ∀ k, List.lookup k ((path, hp.next) :: p.mutexes)
        = if k = path then some hp.next else List.lookup k p.mutexes :=
      fun k => lookup_cons_eq k path hp.next p.mutexes
    refine ⟨?_, ?_, ?_⟩
    · intro k m0 hk
      have hk2 : List.lookup k ((path, hp.next) :: p.mutexes) = some m0 := hk
      rw [hlook] at hk2
      by_cases hkp : k = path
      · rw [if_pos hkp] at hk2
        cases hk2
        exact Nat.lt_succ_self _
      · rw [if_neg hkp] at hk2
        exact Nat.lt_succ_of_lt (hwf.map_alloc k m0 hk2)
    · intro k1 k2 m0 h1 h2
      have g1 : List.lookup k1 ((path, hp.next) :: p.mutexes) = some m0 := h1
      have g2 : List.lookup k2 ((path, hp.next) :: p.mutexes) = some m0 := h2
      rw [hlook] at g1 g2
      by_cases hk1 : k1 = path
      · by_cases hk2 : k2 = path
        · rw [hk1, hk2]
        · rw [if_pos hk1] at g1
          rw [if_neg hk2] at g2
          cases g1
          exact absurd (hwf.map_alloc k2 _ g2) (Nat.lt_irrefl _)
      · by_cases hk2 : k2 = path
        · rw [if_neg hk1] at g1
          rw [if_pos hk2] at g2
          cases g2
          exact absurd (hwf.map_alloc k1 _ g1) (Nat.lt_irrefl _)
        · rw [if_neg hk1] at g1
          rw [if_neg hk2] at g2
          exact hwf.map_inj k1 k2 m0 g1 g2
    · show (List.map Prod.fst ((path, hp.next) :: p.mutexes)).Nodup
      rw [List.map_cons, List.nodup_cons]
      refine ⟨?_, hwf.keys_nodup⟩
      intro hmem
      obtain ⟨m0, hm0⟩ := (mem_keys_iff_lookup path p.mutexes).1 hmem
      rw [hlk] at hm0
      cases hm0

/-- What a returning `pullPath` did: `getMutex` returned `m`, `m` was free, was
locked for the `git pull` and unlocked after it. -/
theorem pullPath_cases (o : Outcome) (p p2 : simplePuller) (hp hp3 : Heap) (path : String)
    (ev : List Event) (h : pullPath o p hp path = some (p2, hp3, ev)) :
    ∃ hp1 m, getMutex p hp path = some (p2, hp1, m)
      ∧ hp1.locked m = false
      ∧ hp3 = { locked := Function.update (Function.update hp1.locked m true) m false
                next := hp1.next }
      ∧ ev = [.Lock m, .gitPull path p2.gitTimeout o, .Unlock m] := by
  unfold pullPath at h
  cases hg : getMutex p hp path with
  | none =>
    rw [hg] at h
    cases h
  | some a =>
    obtain ⟨p1, hp1, m⟩ := a
    rw [hg] at h
    cases hl : hp1.Lock m with
    | none =>
      simp only [hl] at h
      cases h
    | some hp2 =>
      obtain ⟨hfree, hhp2⟩ := Heap.Lock_eq_some hp1 hp2 m hl
      subst hhp2
      simp only [hl] at h
      cases o <;>
        · simp only [Option.some.injEq, Prod.mk.injEq] at h
          obtain ⟨h1, h2, h3⟩ := h
          subst h1 h2 h3
          exact ⟨hp1, m, rfl, hfree, rfl, rfl⟩

/-- When `getMutex` returns `m` and `m` is free, `pullPath` returns, with the
events lock, `git pull`, unlock. -/
theorem pullPath_of_getMutex (o : Outcome) (p p2 : simplePuller) (hp hp1 : Heap)
    (path : String) (m : Nat) (hg : getMutex p hp path = some (p2, hp1, m))
    (hfree : hp1.locked m = false) :
    pullPath o p hp path
      = some (p2, { locked := Function.update (Function.update hp1.locked m true) m false
                    next := hp1.next },
              [.Lock m, .gitPull path p2.gitTimeout o, .Unlock m]) := by
  have hl : hp1.Lock m = some { hp1 with locked := Function.update hp1.locked m true } := by
    simp only [Heap.Lock, hfree, Bool.false_eq_true, if_false]
  unfold pullPath
  rw [hg]
  simp only [hl]
  cases o <;> rfl

/-- The effect of `pullPath` on a well-formed registry when `p.lock` and the
mutex of the path, if it has one, are free: it returns; its events are lock,
`git pull`, unlock of the path's mutex `m`; entries of the map are kept; the
lock state of every mutex allocated before is as before; `m` and `p.lock` are
free; the registry is well formed. -/
theorem pullPath_effect (o : Outcome) (p : simplePuller) (hp : Heap) (path : String)
    (hwf : RegWF p hp) (hreg : hp.locked p.lock = false)
    (hpath : ∀ m, List.lookup path p.mutexes = some m → hp.locked m = false) :
    ∃ p2 hp2 m,
      pullPath o p hp path
        = some (p2, hp2, [.Lock m, .gitPull path p.gitTimeout o, .Unlock m])
      ∧ p2.lock = p.lock ∧ p2.gitTimeout = p.gitTimeout
      ∧ List.lookup path p2.mutexes = some m
      ∧ hp2.locked m = false
      ∧ (∀ k m0, List.lookup k p.mutexes = some m0 → List.lookup k p2.mutexes = some m0)
      ∧ (∀ k m0, List.lookup k p2.mutexes = some m0 →
          List.lookup k p.mutexes = some m0 ∨ (k = path ∧ m0 = m))
      ∧ (∀ m0, m0 < hp.next → hp2.locked m0 = hp.locked m0)
      ∧ hp2.locked p.lock = false
      ∧ RegWF p2 hp2 := by
  obtain ⟨p2, hp1, m, hg⟩ := getMutex_returns p hp path hreg
  obtain ⟨e1, e2, e3, e4, e5, e6, e7, e8, _⟩ := getMutex_effect p p2 hp hp1 path m hg
  have hwf1 : RegWF p2 hp1 := RegWF_getMutex p p2 hp hp1 path m hwf hg
  have hfree : hp1.locked m = false := by
    cases hlk : List.lookup path p.mutexes with
    | some m0 =>
      have h2 := e4 path m0 hlk
      rw [e3] at h2
      cases h2
      rw [e6 m (hwf.map_alloc path m hlk)]
      exact hpath m hlk
    | none =>
      rcases e8 hlk with h | h
      · exact h
      · rw [h]
        exact e7
  have hrun := pullPath_of_getMutex o p p2 hp hp1 path m hg hfree
  rw [e2] at hrun
  refine ⟨p2, _, m, hrun, e1, e2, e3, ?_, e4, e5, ?_, ?_, ⟨hwf1.map_alloc, hwf1.map_inj,
    hwf1.keys_nodup⟩⟩
  · show Function.update (Function.update hp1.locked m true) m false m = false
    rw [Function.update_same]
  · intro m0 hlt
    show Function.update (Function.update hp1.locked m true) m false m0 = hp.locked m0
    by_cases hm : m0 = m
    · rw [hm, Function.update_same, ← e6 m (hm ▸ hlt), hfree]
    · rw [Function.update_noteq hm, Function.update_noteq hm]
      exact e6 m0 hlt
  · show Function.update (Function.update hp1.locked m true) m false p.lock = false
    by_cases hm : p.lock = m
    · rw [hm, Function.update_same]
    · rw [Function.update_noteq hm, Function.update_noteq hm]
      exact e7

/-- While the mutex of the path is held, `pullPath` does not get past
`m.Lock()`: run without interruption it has no result. -/
theorem pullPath_waits_when_held (o : Outcome) (p : simplePuller) (hp : Heap) (path : String)
    (m : Nat) (hwf : RegWF p hp) (hm : List.lookup path p.mutexes = some m)
    (hheld : hp.locked m = true) : pullPath o p hp path = none := by
  cases hpp : pullPath o p hp path with
  | none => rfl
  | some a =>
    obtain ⟨p2, hp2, ev⟩ := a
    obtain ⟨hp1, m1, hg, hfree, _, _⟩ := pullPath_cases o p p2 hp hp2 path ev hpp
    obtain ⟨_, _, e3, e4, _, e6, _, _, _⟩ := getMutex_effect p p2 hp hp1 path m1 hg
    have h2 := e4 path m hm
    rw [e3] at h2
    have h3 : m1 = m := Option.some.inj h2
    rw [h3, e6 m (hwf.map_alloc path m hm), hheld] at hfree
    cases hfree

/-- The step at `m.Lock()`: none while `m` is held; when `m` is free, the
goroutine moves to its `git pull` and `m` is held. -/
theorem step_mLock (s : System) (t : Nat) (path : String) (m : Nat) (rest : List String)
    (hpc : s.threads t = .mLock path m rest) :
    (s.heap.locked m = true → s.step (.step t) = none)
    ∧ (s.heap.locked m = false →
        ∃ s1, s.step (.step t) = some s1 ∧ s1.threads t = .cmdRun path m rest
          ∧ s1.heap.locked m = true) := by
  constructor
  · intro hl
    simp only [System.step, hpc, Heap.Lock, hl, if_true]
  · intro hl
    refine ⟨({ s with heap := { s.heap with locked := Function.update s.heap.locked m true } }
      : System).goto t (.cmdRun path m rest), ?_, ?_, ?_⟩
    · simp only [System.step, hpc, Heap.Lock, hl, Bool.false_eq_true, if_false]
    · rw [goto_threads, if_pos rfl]
    · show Function.update s.heap.locked m true m = true
      rw [Function.update_same]

/-- The end of a `git pull` and the deferred unlock: from `cmdRun` the goroutine
goes, whatever the outcome, to `mUnlock` still holding `m`, and from there to the
head of the loop with `m` free and every other mutex as it was. -/
theorem step_cmdRun_unlock (s : System) (t : Nat) (path : String) (m : Nat)
    (rest : List String) (o : Outcome) (hpc : s.threads t = .cmdRun path m rest) :
    ∃ s1 s2, s.step (.cmdDone t o) = some s1
      ∧ s1.threads t = .mUnlock path m rest o
      ∧ s1.heap.locked m = s.heap.locked m
      ∧ s1.step (.step t) = some s2
      ∧ s2.threads t = .forLoop rest
      ∧ s2.heap.locked m = false
      ∧ ∀ m0, m0 ≠ m → s2.heap.locked m0 = s.heap.locked m0 := by
  have h1 : (s.goto t (.mUnlock path m rest o)).threads t = .mUnlock path m rest o := by
    rw [goto_threads, if_pos rfl]
  refine ⟨s.goto t (.mUnlock path m rest o),
    ({ (s.goto t (.mUnlock path m rest o)) with
        heap := (s.goto t (.mUnlock path m rest o)).heap.Unlock m } : System).goto t
      (.forLoop rest), ?_, h1, rfl, ?_, ?_, ?_, ?_⟩
  · simp only [System.step, hpc]
  · simp only [System.step, h1]
  · rw [goto_threads, if_pos rfl]
  · show Function.update s.heap.locked m false m = false
    rw [Function.update_same]
  · intro m0 hm0
    show Function.update s.heap.locked m false m0 = s.heap.locked m0
    rw [Function.update_noteq hm0]

/-- C13: for every path and every outcome `o` of `git pull`, on a well-formed
registry with `p.lock` free:
(1) while the path's mutex is held, `pullPath` waits at `m.Lock()` and has no
result, so no `git pull` is run without the lock;
(2) when the path's mutex is free (or not yet created), `pullPath` returns; it
locks the path's mutex `m`, runs `git pull`, unlocks `m`, in this order;
afterwards `m` and `p.lock` are free, and every path that had a mutex before, and
every mutex allocated before, is in the same locked or unlocked state;
(3) in every state reached by any schedule from a new puller, a goroutine at
`m.Lock()` for the path cannot step while `m` is held and takes `m` when it
steps; a goroutine running `git pull` in the path holds the path's mutex; and
when the pull ends with `o` the goroutine still holds `m` until its next step,
which unlocks `m`, changes no other mutex, and returns to the loop. -/
theorem pullPath_releases_lock (o : Outcome) (p : simplePuller) (hp : Heap) (path : String)
    (hwf : RegWF p hp) (hreg : hp.locked p.lock = false) :
    (∀ m, List.lookup path p.mutexes = some m → hp.locked m = true →
        pullPath o p hp path = none)
    ∧ ((∀ m, List.lookup path p.mutexes = some m → hp.locked m = false) →
        ∃ p2 hp2 m,
          pullPath o p hp path
            = some (p2, hp2, [.Lock m, .gitPull path p.gitTimeout o, .Unlock m])
          ∧ List.lookup path p2.mutexes = some m
          ∧ hp2.locked m = false
          ∧ (∀ k m0, List.lookup k p.mutexes = some m0 →
              List.lookup k p2.mutexes = some m0 ∧ hp2.locked m0 = hp.locked m0)
          ∧ (∀ m0, m0 < hp.next → hp2.locked m0 = hp.locked m0)
          ∧ hp2.locked p2.lock = false)
    ∧ (∀ (timeout : Int) (sched : List Action) (s : System),
        (System.init timeout).exec sched = some s → ∀ t m rest,
          (s.threads t = .mLock path m rest →
            (s.heap.locked m = true → s.step (.step t) = none)
            ∧ (s.heap.locked m = false →
                ∃ s1, s.step (.step t) = some s1 ∧ s1.threads t = .cmdRun path m rest
                  ∧ s1.heap.locked m = true))
          ∧ (s.threads t = .cmdRun path m rest →
            s.heap.locked m = true
            ∧ List.lookup path s.p.mutexes = some m
            ∧ ∃ s1 s2, s.step (.cmdDone t o) = some s1
                ∧ s1.threads t = .mUnlock path m rest o
                ∧ s1.heap.locked m = true
                ∧ s1.step (.step t) = some s2
                ∧ s2.threads t = .forLoop rest
                ∧ s2.heap.locked m = false
                ∧ ∀ m0, m0 ≠ m → s2.heap.locked m0 = s.heap.locked m0)) := by
  refine ⟨?_, ?_, ?_⟩
  · intro m hm hheld
    exact pullPath_waits_when_held o p hp path m hwf hm hheld
  · intro hpath
    obtain ⟨p2, hp2, m, h1, h2, _, h4, h5, h6, _, h8, h9, _⟩ :=
      pullPath_effect o p hp path hwf hreg hpath
    refine ⟨p2, hp2, m, h1, h4, h5, ?_, h8, ?_⟩
    · intro k m0 hk
      exact ⟨h6 k m0 hk, h8 m0 (hwf.map_alloc k m0 hk)⟩
    · rw [h2]
      exact h9
  · intro timeout sched s hrun t m rest
    have hI : Inv s := (Inv.init timeout).exec sched hrun
    constructor
    · intro hpc
      exact step_mLock s t path m rest hpc
    · intro hpc
      have hlocked : s.heap.locked m = true :=
        (hI.locked_iff m).2 ⟨t, by rw [hpc]; rfl⟩
      refine ⟨hlocked, hI.thread_map t path m (by rw [hpc]; rfl), ?_⟩
      obtain ⟨s1, s2, g1, g2, g3, g4, g5, g6, g7⟩ := step_cmdRun_unlock s t path m rest o hpc
      exact ⟨s1, s2, g1, g2, g3.trans hlocked, g4, g5, g6, g7⟩

/-- The registry of `sampleSystem`, where `/a` has the mutex at address 1, is
well formed. -/
theorem RegWF_sampleSystem : RegWF sampleSystem.p sampleSystem.heap := by
  have hm : sampleSystem.p.mutexes = [("/a", 1)] := by decide
  have hn : sampleSystem.heap.next = 2 := by decide
  have hlook : ∀ k m, List.lookup k sampleSystem.p.mutexes = some m → k = "/a" ∧ m = 1 := by
    intro k m h
    rw [hm, lookup_cons_eq] at h
    by_cases hk : k = "/a"
    · rw [if_pos hk] at h
      cases h
      exact ⟨hk, rfl⟩
    · rw [if_neg hk] at h
      cases h
  refine ⟨?_, ?_, ?_⟩
  · intro k m h
    rw [hn, (hlook k m h).2]
    exact Nat.lt_succ_self 1
  · intro k1 k2 m h1 h2
    rw [(hlook k1 m h1).1, (hlook k2 m h2).1]
  · rw [hm]
    decide

/-- C13 at samples: in `sampleSystem`, where goroutine 0 runs `git pull` in `/a`,
a further `pullPath` of `/a` has to wait and the mutex of `/a` is held; on a new
puller a pull of `/a` that times out locks and unlocks the mutex at address 1,
which is free afterwards. -/
theorem pullPath_releases_lock_witness :
    pullPath .success sampleSystem.p sampleSystem.heap "/a" = none
    ∧ (∃ p2 hp2 m,
        pullPath .timeout (New 10 Heap.empty).1 (New 10 Heap.empty).2 "/a"
          = some (p2, hp2, [.Lock m, .gitPull "/a" 10 .timeout, .Unlock m])
        ∧ List.lookup "/a" p2.mutexes = some m
        ∧ hp2.locked m = false)
    ∧ sampleSystem.heap.locked 1 = true :=
  ⟨(pullPath_releases_lock .success sampleSystem.p sampleSystem.heap "/a" RegWF_sampleSystem
      (by decide)).1 1 (by decide) (by decide),
   match (pullPath_releases_lock .timeout (New 10 Heap.empty).1 (New 10 Heap.empty).2 "/a"
      (RegWF_New 10 Heap.empty) rfl).2.1 (fun _ h => by cases h) with
   | ⟨p2, hp2, m, h1, h2, h3, _⟩ => ⟨p2, hp2, m, h1, h2, h3⟩,
   (((pullPath_releases_lock .success sampleSystem.p sampleSystem.heap "/a" RegWF_sampleSystem
      (by decide)).2.2 10 sampleSchedule sampleSystem rfl 0 1 []).2 (by decide)).1⟩

/-- The runs of `git pull` in the events of one `pullPath` followed by more. -/
theorem pulls_pullPath_append (m : Nat) (path : String) (timeout : Int) (o : Outcome)
    (es : List Event) :
    Event.pulls ([.Lock m, .gitPull path timeout o, .Unlock m] ++ es)
      = (path, o) :: Event.pulls es := by
  rfl

/-- The loop of `mutexedPull` from position `i`, on a well-formed registry with
`p.lock` and the mutexes of the listed paths free: it returns, and its runs of
`git pull` are the listed paths in order, each with the outcome assigned to its
position. -/
theorem mutexedPullLoop_effect (outs : Nat → Outcome) (paths : List String) :
    ∀ (i : Nat) (p : simplePuller) (hp : Heap), RegWF p hp → hp.locked p.lock = false →
      (∀ k, k ∈ paths → ∀ m, List.lookup k p.mutexes = some m → hp.locked m = false) →
      ∃ p2 hp2 ev, mutexedPullLoop outs paths i p hp = some (p2, hp2, ev)
        ∧ (Event.pulls ev).map Prod.fst = paths
        ∧ (Event.pulls ev).map Prod.snd = (List.range' i paths.length).map outs := by
  induction paths with
  | nil =>
    intro i p hp _ _ _
    exact ⟨p, hp, [], rfl, rfl, rfl⟩
  | cons path rest ih =>
    intro i p hp hwf hreg hfree
    obtain ⟨p1, hp1, m, h1, h2, _, _, h5, _, h7, h8, h9, hwf1⟩ :=
      pullPath_effect (outs i) p hp path hwf hreg
        (hfree path (List.mem_cons_self path rest))
    have hreg1 : hp1.locked p1.lock = false := by
      rw [h2]
      exact h9
    have hfree1 : ∀ k, k ∈ rest → ∀ m0, List.lookup k p1.mutexes = some m0 →
        hp1.locked m0 = false := by
      intro k hk m0 hm0
      rcases h7 k m0 hm0 with hold | ⟨_, hnew⟩
      · rw [h8 m0 (hwf.map_alloc k m0 hold)]
        exact hfree k (List.mem_cons_of_mem path hk) m0 hold
      · rw [hnew]
        exact h5
    obtain ⟨p2, hp2, ev, hr, hr1, hr2⟩ := ih (i + 1) p1 hp1 hwf1 hreg1 hfree1
    refine ⟨p2, hp2, [.Lock m, .gitPull path p.gitTimeout (outs i), .Unlock m] ++ ev,
      ?_, ?_, ?_⟩
    · simp only [mutexedPullLoop, h1, hr]
    · rw [pulls_pullPath_append, List.map_cons, hr1]
    · rw [pulls_pullPath_append, List.map_cons, hr2, List.length_cons, List.range'_succ,
        List.map_cons]

/-- Whenever the loop of `mutexedPull` returns, from any state, its runs of
`git pull` are the listed paths in order, each with the outcome assigned to its
position. -/
theorem mutexedPullLoop_pulls (outs : Nat → Outcome) (paths : List String) :
    ∀ (i : Nat) (p p2 : simplePuller) (hp hp2 : Heap) (ev : List Event),
      mutexedPullLoop outs paths i p hp = some (p2, hp2, ev) →
      (Event.pulls ev).map Prod.fst = paths
        ∧ (Event.pulls ev).map Prod.snd = (List.range' i paths.length).map outs := by
  induction paths with
  | nil =>
    intro i p p2 hp hp2 ev h
    simp only [mutexedPullLoop, Option.some.injEq, Prod.mk.injEq] at h
    obtain ⟨_, _, h3⟩ := h
    subst h3
    exact ⟨rfl, rfl⟩
  | cons path rest ih =>
    intro i p p2 hp hp2 ev h
    unfold mutexedPullLoop at h
    cases hpp : pullPath (outs i) p hp path with
    | none =>
      rw [hpp] at h
      cases h
    | some a =>
      obtain ⟨p1, hp1, ev1⟩ := a
      rw [hpp] at h
      cases hl : mutexedPullLoop outs rest (i + 1) p1 hp1 with
      | none =>
        simp only [hl] at h
        cases h
      | some b =>
        obtain ⟨p3, hp3, ev3⟩ := b
        simp only [hl, Option.some.injEq, Prod.mk.injEq] at h
        obtain ⟨_, _, h3⟩ := h
        subst h3
        obtain ⟨_, m, _, _, _, hev⟩ := pullPath_cases (outs i) p p1 hp hp1 path ev1 hpp
        obtain ⟨hr1, hr2⟩ := ih (i + 1) p1 p3 hp1 hp3 ev3 hl
        subst hev
        constructor
        · rw [pulls_pullPath_append, List.map_cons, hr1]
        · rw [pulls_pullPath_append, List.map_cons, hr2, List.length_cons, List.range'_succ,
            List.map_cons]

/-- C11: for every non-nil sequence of paths and every assignment `outs` of
outcomes to positions, `mutexedPull`, started on a well-formed registry with
`p.lock` and the mutexes of the listed paths free, returns, and the runs of
`git pull` it made are exactly the paths of the sequence, in sequence order, one
run per position, the run at position `i` ending with `outs i`: no path is
skipped after a failure and none is pulled again. -/
theorem mutexedPull_attempts_each_once (outs : Nat → Outcome) (p : simplePuller) (hp : Heap)
    (paths : List String) (hwf : RegWF p hp) (hreg : hp.locked p.lock = false)
    (hfree : ∀ k, k ∈ paths → ∀ m, List.lookup k p.mutexes = some m → hp.locked m = false) :
    ∃ p2 hp2 ev, mutexedPull outs p hp (some paths) = some (p2, hp2, ev)
      ∧ (Event.pulls ev).map Prod.fst = paths
      ∧ (Event.pulls ev).map Prod.snd = (List.range paths.length).map outs
      ∧ (Event.pulls ev).length = paths.length := by
  obtain ⟨p2, hp2, ev, h1, h2, h3⟩ := mutexedPullLoop_effect outs paths 0 p hp hwf hreg hfree
  refine ⟨p2, hp2, ev, h1, h2, ?_, ?_⟩
  · rw [List.range_eq_range']
    exact h3
  · have hlen := congrArg List.length h2
    rw [List.length_map] at hlen
    exact hlen

/-- C11 at a sample: four paths, `/a` twice, the second pull failing and the
third timing out; all four are pulled, in order. -/
theorem mutexedPull_attempts_each_once_witness :
    ∃ p2 hp2 ev,
      mutexedPull sampleOutcomes (New 10 Heap.empty).1 (New 10 Heap.empty).2
          (some ["/a", "/b", "/a", "/c"]) = some (p2, hp2, ev)
      ∧ (Event.pulls ev).map Prod.fst = ["/a", "/b", "/a", "/c"]
      ∧ (Event.pulls ev).map Prod.snd
          = (List.range ["/a", "/b", "/a", "/c"].length).map sampleOutcomes :=
  match mutexedPull_attempts_each_once sampleOutcomes (New 10 Heap.empty).1
      (New 10 Heap.empty).2 ["/a", "/b", "/a", "/c"] (RegWF_New 10 Heap.empty) rfl
      (fun _ _ _ h => by cases h) with
  | ⟨p2, hp2, ev, h1, h2, h3, _⟩ => ⟨p2, hp2, ev, h1, h2, h3⟩

/-- The nil slice: `mutexedPull` returns at once and pulls nothing. -/
theorem mutexedPull_nil (outs : Nat → Outcome) (p : simplePuller) (hp : Heap) :
    mutexedPull outs p hp none = some (p, hp, []) :=
  rfl

/-- The sample run evaluated: the events of the four pulls. -/
theorem mutexedPull_sample_events :
    ((mutexedPull sampleOutcomes (New 10 Heap.empty).1 (New 10 Heap.empty).2
        (some ["/a", "/b", "/a", "/c"])).map fun r => r.2.2)
      = some [.Lock 1, .gitPull "/a" 10 .success, .Unlock 1,
              .Lock 2, .gitPull "/b" 10 .exitError, .Unlock 2,
              .Lock 1, .gitPull "/a" 10 .timeout, .Unlock 1,
              .Lock 3, .gitPull "/c" 10 .success, .Unlock 3] := by
  decide

/-- A sequence of `getMutex` calls on a well-formed registry whose `p.lock` is
free: every call returns; the registry stays well formed; entries present before
are unchanged; each address returned is the final entry of its path; and the
keys afterwards are the old keys and the requested paths. -/
theorem getMutexSeq_effect (paths : List String) :
    ∀ (p : simplePuller) (hp : Heap), RegWF p hp → hp.locked p.lock = false →
      ∃ p2 hp2 ms, getMutexSeq paths p hp = some (p2, hp2, ms)
        ∧ RegWF p2 hp2 ∧ hp2.locked p2.lock = false
        ∧ ms.length = paths.length
        ∧ (∀ k m, List.lookup k p.mutexes = some m → List.lookup k p2.mutexes = some m)
        ∧ (∀ k m, (k, m) ∈ paths.zip ms → List.lookup k p2.mutexes = some m)
        ∧ (∀ k, k ∈ p2.mutexes.map Prod.fst ↔ (k ∈ paths ∨ k ∈ p.mutexes.map Prod.fst)) := by
  induction paths with
  | nil =>
    intro p hp hwf hreg
    refine ⟨p, hp, [], rfl, hwf, hreg, rfl, fun _ _ h => h, ?_, ?_⟩
    · intro k m h
      cases h
    · intro k
      simp
  | cons path rest ih =>
    intro p hp hwf hreg
    obtain ⟨p1, hp1, m, hg⟩ := getMutex_returns p hp path hreg
    obtain ⟨e1, _, e3, e4, e5, _, e7, _, _⟩ := getMutex_effect p p1 hp hp1 path m hg
    have hwf1 : RegWF p1 hp1 := RegWF_getMutex p p1 hp hp1 path m hwf hg
    have hreg1 : hp1.locked p1.lock = false := by
      rw [e1]
      exact e7
    obtain ⟨p2, hp2, ms, hr, hwf2, hreg2, hlen, hkeep, hzip, hkeys⟩ := ih p1 hp1 hwf1 hreg1
    refine ⟨p2, hp2, m :: ms, ?_, hwf2, hreg2, ?_, ?_, ?_, ?_⟩
    · simp only [getMutexSeq, hg, hr]
    · rw [List.length_cons, List.length_cons, hlen]
    · intro k m0 hk
      exact hkeep k m0 (e4 k m0 hk)
    · intro k m0 hk
      rw [List.zip_cons_cons, List.mem_cons] at hk
      rcases hk with heq | hmem
      · cases heq
        exact hkeep path m e3
      · exact hzip k m0 hmem
    · intro k
      rw [hkeys k, List.mem_cons, mem_keys_iff_lookup k p1.mutexes,
        mem_keys_iff_lookup k p.mutexes]
      constructor
      · rintro (h | ⟨m0, hm0⟩)
        · exact Or.inl (Or.inr h)
        · rcases e5 k m0 hm0 with hold | ⟨hkp, _⟩
          · exact Or.inr ⟨m0, hold⟩
          · exact Or.inl (Or.inl hkp)
      · rintro ((h | h) | ⟨m0, hm0⟩)
        · exact Or.inr ⟨m, by rw [h]; exact e3⟩
        · exact Or.inl h
        · exact Or.inr ⟨m0, e4 k m0 hm0⟩

/-- C12: after any sequence `paths` of `getMutex` calls on a new puller, every
call has returned; the registry has no path twice and its keys are exactly the
paths requested; two calls returned the same address if and only if their paths
are equal; and after any further calls `more`, every entry the registry held is
still there with the same address. -/
theorem getMutexSeq_registry (timeout : Int) (paths more : List String) :
    ∃ p2 hp2 ms,
      getMutexSeq paths (New timeout Heap.empty).1 (New timeout Heap.empty).2
        = some (p2, hp2, ms)
      ∧ ms.length = paths.length
      ∧ (p2.mutexes.map Prod.fst).Nodup
      ∧ (∀ k, k ∈ p2.mutexes.map Prod.fst ↔ k ∈ paths)
      ∧ (∀ k1 m1 k2 m2, (k1, m1) ∈ paths.zip ms → (k2, m2) ∈ paths.zip ms →
          (m1 = m2 ↔ k1 = k2))
      ∧ (∀ k m, (k, m) ∈ paths.zip ms → List.lookup k p2.mutexes = some m)
      ∧ ∃ p3 hp3 ms3, getMutexSeq more p2 hp2 = some (p3, hp3, ms3)
          ∧ ∀ k m, List.lookup k p2.mutexes = some m → List.lookup k p3.mutexes = some m := by
  obtain ⟨p2, hp2, ms, hr, hwf2, hreg2, hlen, _, hzip, hkeys⟩ :=
    getMutexSeq_effect paths (New timeout Heap.empty).1 (New timeout Heap.empty).2
      (RegWF_New timeout Heap.empty) rfl
  obtain ⟨p3, hp3, ms3, hr3, _, _, _, hkeep3, _, _⟩ := getMutexSeq_effect more p2 hp2 hwf2 hreg2
  refine ⟨p2, hp2, ms, hr, hlen, hwf2.keys_nodup, ?_, ?_, hzip, p3, hp3, ms3, hr3, hkeep3⟩
  · intro k
    rw [hkeys k]
    constructor
    · rintro (h | h)
      · exact h
      · cases h
    · exact Or.inl
  · intro k1 m1 k2 m2 h1 h2
    have g1 := hzip k1 m1 h1
    have g2 := hzip k2 m2 h2
    constructor
    · intro hm
      rw [hm] at g1
      exact hwf2.map_inj k1 k2 m2 g1 g2
    · intro hk
      rw [hk, g2] at g1
      cases g1
      rfl

/-- C12 at a sample: the calls for `/a`, `/b`, `/a`, `/c` on a new puller return
the addresses 1, 2, 1, 3 and leave three entries. -/
theorem getMutexSeq_sample_addresses :
    ((getMutexSeq ["/a", "/b", "/a", "/c"] (New 10 Heap.empty).1 (New 10 Heap.empty).2).map
        fun r => (r.2.2, r.1.mutexes))
      = some ([1, 2, 1, 3], [("/c", 3), ("/b", 2), ("/a", 1)]) := by
  decide

/-- Running a schedule in two parts. -/
theorem exec_append (s : System) (as bs : List Action) :
    s.exec (as ++ bs) = (s.exec as).bind fun s1 => s1.exec bs := by
  induction as generalizing s with
  | nil => rfl
  | cons a as ih =>
    cases hs : s.step a with
    | none => simp only [List.cons_append, System.exec, hs, Option.bind]
    | some s1 =>
      simp only [List.cons_append, System.exec, hs]
      exact ih s1

/-- The five steps a goroutine takes through `pullPath`, when it never has to
wait, are the function `pullPath`: they leave the puller and the mutexes it
leaves, with the goroutine back at the head of the loop. -/
theorem exec_pullPath (s : System) (t : Nat) (path : String) (rest : List String)
    (o : Outcome) (p2 : simplePuller) (hp2 : Heap) (ev : List Event)
    (hpc : s.threads t = .getMutexLock path rest)
    (hpp : pullPath o s.p s.heap path = some (p2, hp2, ev)) :
    s.exec [.step t, .step t, .step t, .cmdDone t o, .step t]
      = some (({ s with p := p2, heap := hp2 } : System).goto t (.forLoop rest)) := by
  obtain ⟨hp1, m, hg, hfree, hhp2, _⟩ := pullPath_cases o s.p p2 s.heap hp2 path ev hpp
  subst hhp2
  have h2 := exec_getMutex s t path rest hpc p2 hp1 m hg
  have hsplit : [Action.step t, .step t, .step t, .cmdDone t o, .step t]
      = [Action.step t, .step t] ++ [.step t, .cmdDone t o, .step t] := rfl
  have hl : hp1.Lock m = some { hp1 with locked := Function.update hp1.locked m true } := by
    simp only [Heap.Lock, hfree, Bool.false_eq_true, if_false]
  rw [hsplit, exec_append, h2]
  simp only [Option.bind, System.exec, System.step, System.goto, Function.update_same, hl,
    Function.update_idem, Heap.Unlock]

end git

/-! ## Theorems: secrets and the two formats -/

/-- A notification decoded by `githubPayload` carries the empty secret. -/
theorem githubPayload_secret_empty (lib : Stdlib) (h : handler σ) (r : Request) (pl : Payload)
    (hpl : h.githubPayload lib r = .ok pl) : pl.Secret = "" := by
  unfold handler.githubPayload at hpl
  cases hf : lib.ParseForm r with
  | error err =>
    rw [hf] at hpl
    cases hpl
  | ok form =>
    rw [hf] at hpl
    cases hd : lib.UnmarshalGithub (FormValue form "payload") with
    | error err =>
      simp only [hd] at hpl
      cases hpl
    | ok doc =>
      simp only [hd, Except.ok.injEq] at hpl
      rw [← hpl]

/-- A notification decoded by `gitlabPayload` carries the value of the
`X-Gitlab-Token` header as its secret. -/
theorem gitlabPayload_secret_header (lib : Stdlib) (h : handler σ) (r : Request) (pl : Payload)
    (hpl : h.gitlabPayload lib r = .ok pl) : pl.Secret = r.Header.Get "X-Gitlab-Token" := by
  unfold handler.gitlabPayload at hpl
  cases hb : lib.ReadAll r with
  | error err =>
    rw [hb] at hpl
    cases hpl
  | ok body =>
    rw [hb] at hpl
    cases hd : lib.UnmarshalGitlab body with
    | error err =>
      simp only [hd] at hpl
      cases hpl
    | ok doc =>
      simp only [hd] at hpl
      by_cases hlen : doc.Commits.len = 0
      · rw [if_pos hlen] at hpl
        cases hpl
      · rw [if_neg hlen] at hpl
        cases hfirst : doc.Commits.first with
        | none =>
          simp only [hfirst] at hpl
          cases hpl
        | some c =>
          simp only [hfirst, Except.ok.injEq] at hpl
          rw [← hpl]

/-- C14: for a request that normalises to `pl` and a registry entry `e` for
`pl.Repo` whose secret is not empty: if the request is decoded as format A (its
content type is not `application/json`), `getRepositoryPath` fails with the
invalid-secret error for the empty presented secret and `handle` dispatches
nothing; and whenever `getRepositoryPath` succeeds, the request was decoded as
format B and its `X-Gitlab-Token` header equals `e.Secret`. -/
theorem formatA_refused_by_secret_entry (lib : Stdlib) (h : handler σ) (w : ResponseWriter)
    (r : Request) (pl : Payload) (e : config.Repo)
    (hpl : h.getPayload lib r = .ok pl) (he : List.lookup pl.Repo h.repos = some e)
    (hs : e.Secret ≠ "") :
    (r.Header.Get "Content-Type" ≠ "application/json" →
        h.getRepositoryPath lib r = .error (.secretNotValid "")
        ∧ (h.handle lib w r).1 = h
        ∧ (h.handle lib w r).2 = httpError w "Bad Request" StatusBadRequest)
    ∧ (∀ paths, h.getRepositoryPath lib r = .ok paths →
        r.Header.Get "Content-Type" = "application/json"
        ∧ r.Header.Get "X-Gitlab-Token" = e.Secret) := by
  have hres := getRepositoryPath_of_entry lib h r pl e hpl he
  have hA : r.Header.Get "Content-Type" ≠ "application/json" →
      h.getRepositoryPath lib r = .error (.secretNotValid "") := by
    intro hct
    have hgh : h.githubPayload lib r = .ok pl := by
      rw [← getPayload_other lib h r hct]
      exact hpl
    have hsec : pl.Secret = "" := githubPayload_secret_empty lib h r pl hgh
    rw [hres, hsec]
    have hne : ("" : String) ≠ e.Secret := fun heq => hs heq.symm
    simp only [ne_eq, hs, not_false_eq_true, hne, and_self, if_true]
  constructor
  · intro hct
    have herr := hA hct
    rw [handle_of_error lib h w r _ herr]
    exact ⟨herr, rfl, rfl⟩
  · intro paths hok
    by_cases hct : r.Header.Get "Content-Type" = "application/json"
    · refine ⟨hct, ?_⟩
      have hgl : h.gitlabPayload lib r = .ok pl := by
        rw [← getPayload_json lib h r hct]
        exact hpl
      rw [← gitlabPayload_secret_header lib h r pl hgl]
      rw [hres] at hok
      by_cases hp : pl.Secret = e.Secret
      · exact hp
      · simp only [ne_eq, hs, not_false_eq_true, hp, and_self, if_true] at hok
        cases hok
    · rw [hA hct] at hok
      cases hok

/-- C14 at a sample: the format-A request for `demo` against a registry that
protects `demo` with the secret `right` is refused and nothing is dispatched. -/
theorem formatA_refused_by_secret_entry_witness :
    (sampleHandler [("demo", ⟨"right", some ["/a"]⟩)]).getRepositoryPath sampleStdlib
        sampleFormRequest = .error (.secretNotValid "")
    ∧ ((sampleHandler [("demo", ⟨"right", some ["/a"]⟩)]).handle sampleStdlib NewRecorder
        sampleFormRequest).1.event = [] :=
  ⟨((formatA_refused_by_secret_entry sampleStdlib
      (sampleHandler [("demo", ⟨"right", some ["/a"]⟩)]) NewRecorder sampleFormRequest
      { Name := "ann", Email := "a@x.io", CommitId := "c1", Message := "m1", Repo := "demo" }
      ⟨"right", some ["/a"]⟩ rfl rfl (by decide)).1 (by decide)).1,
   congrArg handler.event ((formatA_refused_by_secret_entry sampleStdlib
      (sampleHandler [("demo", ⟨"right", some ["/a"]⟩)]) NewRecorder sampleFormRequest
      { Name := "ann", Email := "a@x.io", CommitId := "c1", Message := "m1", Repo := "demo" }
      ⟨"right", some ["/a"]⟩ rfl rfl (by decide)).1 (by decide)).2.1⟩

/-- The format-B request carrying the matching token is authorised for the same
entry. -/
theorem formatB_matching_token_authorized :
    (sampleHandler [("demo", ⟨"right", some ["/a"]⟩)]).getRepositoryPath sampleStdlib
        (sampleJSONRequest sampleGitlabDoc "right") = .ok (some ["/a"]) :=
  rfl

end Gitwh
